import Mathlib

/-!
Verification of the recommendation fallback pipeline of the qloo-llm-hackathon
repository (Netlify serverless handler, final version in `src/unnamed/part_000`,
duplicated as the second half of `src/netlify/functions/qloo.ts`).

The TypeScript code is embedded shallowly:

* JS strings are `String` / `List Char`; helper functions (`includes`, `split`,
  `trim`, template literals, truthiness of `x || y`) are modelled explicitly
  as executable Lean functions (`jsIncludes`, `jsSplit`, `jsTrim`, `jsOrS`, ...).
* All network calls (`fetch`) are replaced by an explicit `Oracle` that supplies
  one response per call, consumed in call order through a `World` counter state;
  every call made is also logged in a trace, so that statements about "no call
  happened" or about total wall-clock latency of the calls made can be put
  formally.  The URL strings passed to `fetch` do not influence any response in
  the model (the oracle stands for the network), so they are not reconstructed
  except where the code reuses them (`searchQuery` in the enrichment loop).
* `JSON.parse` is modelled by an executable recursive-descent parser `parseJson`
  for the JSON grammar (strings with the common escapes, numbers without
  exponents, arrays, objects, literals).  The regex field extractors of
  `extractPlacesManually` are modelled by the scanner `scanField` /
  `scanRatingField` which reproduces the global-regex scan.
* The two process-global caches (`explanationCache`, `placesCache`) start empty
  in a fresh process and, within one modelled request, no cache key is ever
  written before it could be read (writes happen only when the corresponding
  computation returns), so the model elides them.
* The mutually recursive pair `generatePlacesWithOpenAI` /
  `enrichPlacesWithGoogleData` is modelled by the single fuel-indexed function
  `pipe` with a call tag; the fuel only bounds recursion depth (the real code
  can recurse unboundedly through the zero-validated fallback), and every
  theorem about the pipeline is conditioned on the run producing a result.
-/

/-! ## JS string primitives -/

/-- JS truthiness of an optional string (`undefined` and `""` are falsy). -/
def jsTruthyS (o : Option String) : Bool :=
  match o with
  | none => false
  | some s => s ≠ ""

/-- JS `a || b` on an optional string with a string default. -/
def jsOrS (o : Option String) (d : String) : String :=
  match o with
  | none => d
  | some s => if s = "" then d else s

/-- JS `a || b` on an optional number (`undefined` and `0` are falsy). -/
def jsOrRat (o : Option Rat) (d : Rat) : Rat :=
  match o with
  | none => d
  | some x => if x = 0 then d else x

/-- JS whitespace for `trim` and `\s` (the ASCII part, which is all the
pipeline ever meets). -/
def jsIsWs (c : Char) : Bool :=
  c = ' ' || c = '\t' || c = '\n' || c = '\r' || c = '\x0b' || c = '\x0c'

/-- JS `String.prototype.trim` on a character list. -/
def jsTrimL (l : List Char) : List Char :=
  ((l.dropWhile jsIsWs).reverse.dropWhile jsIsWs).reverse

/-- JS `String.prototype.trim`. -/
def jsTrim (s : String) : String :=
  ⟨jsTrimL s.data⟩

/-- Substring occurrence test on character lists (JS `includes`). -/
def containsSub (sub : List Char) : List Char → Bool
  | [] => sub.isEmpty
  | c :: cs => sub.isPrefixOf (c :: cs) || containsSub sub cs

/-- JS `s.includes(pat)`. -/
def jsIncludes (s pat : String) : Bool :=
  containsSub pat.data s.data

/-- JS `String.prototype.toLowerCase` (ASCII case folding, which covers every
string the pipeline compares). -/
def jsLower (s : String) : String :=
  ⟨s.data.map Char.toLower⟩

/-- JS `s.replace(" ", "")`: only the first space is removed. -/
def jsReplaceFirstSpaceL : List Char → List Char
  | [] => []
  | c :: cs => if c = ' ' then cs else c :: jsReplaceFirstSpaceL cs

/-- JS `s.replace(" ", "")` on strings. -/
def jsReplaceFirstSpace (s : String) : String :=
  ⟨jsReplaceFirstSpaceL s.data⟩

/-- Splitting worker for `jsSplit`: `d :: ds` is the (nonempty) separator,
`acc` the reversed current segment.  The recursion is driven by a fuel
counter (structural, so that concrete runs reduce inside the kernel); each
step consumes at least one input character, so `s.length + 1` fuel always
suffices and the fuel-exhausted branch is unreachable from `jsSplitL`. -/
def jsSplitAuxF (d : Char) (ds : List Char) : Nat → List Char → List Char → List (List Char)
  | 0, s, acc => [acc.reverse ++ s]
  | _ + 1, [], acc => [acc.reverse]
  | fuel + 1, c :: cs, acc =>
    if (d :: ds).isPrefixOf (c :: cs) then
      acc.reverse :: jsSplitAuxF d ds fuel ((c :: cs).drop (d :: ds).length) []
    else
      jsSplitAuxF d ds fuel cs (c :: acc)

/-- JS `s.split(sep)` for a nonempty separator, on character lists. -/
def jsSplitL (sep : List Char) (s : List Char) : List (List Char) :=
  match sep with
  | [] => [s]
  | d :: ds => jsSplitAuxF d ds (s.length + 1) s []

/-- JS `s.split(sep)` on strings. -/
def jsSplit (s sep : String) : List String :=
  (jsSplitL sep.data s.data).map (⟨·⟩)

/-- JS `arr.join(" ")`. -/
def joinSpace : List String → String
  | [] => ""
  | [s] => s
  | s :: rest => s ++ " " ++ joinSpace rest

/-- JS `arr.slice(0, n)` for a possibly negative JS number `n`. -/
def jsTake (n : Int) (l : List α) : List α :=
  if 0 ≤ n then l.take n.toNat else l.take (l.length - (-n).toNat)

/-- `(s || "").toLowerCase().split(" ").filter(t => t.length > 2)` — the
query tokenisation used by the relevance matcher and the enrichment stage. -/
def tokensGt2 (s : String) : List String :=
  (jsSplit (jsLower s) " ").filter (fun t => 2 < t.length)

/-! ## Levenshtein distance (`levenshteinDistance`, part_000 lines 501-527)

The source builds the classic DP matrix row by row: `matrix[i][0] = i`,
`matrix[0][j] = j`, and for `i, j ≥ 1`

    matrix[i][j] = if str2[i-1] = str1[j-1] then matrix[i-1][j-1]
                   else min(matrix[i-1][j-1]+1, matrix[i][j-1]+1, matrix[i-1][j]+1)

returning `matrix[str2.length][str1.length]`.  `nextRow` computes row `i`
from row `i-1`, exactly as one pass of the inner loop does. -/

/-- Inner-loop worker: given the current character `c` of `str2`, the rest of
`str1`, the diagonal value `matrix[i-1][j-1]`, the value just computed to the
left `matrix[i][j-1]`, and the remaining previous-row values
`matrix[i-1][j..]`, produce the remaining values of the current row. -/
def nextRowAux (c : Char) : List Char → Nat → Nat → List Nat → List Nat
  | [], _, _, _ => []
  | ch :: chs, diag, left, prev =>
    let cur := if c = ch then diag else min diag (min left (prev.headD 0)) + 1
    cur :: nextRowAux c chs (prev.headD 0) cur prev.tail

/-- One pass of the outer loop: next DP row from the previous one. -/
def nextRow (c : Char) (str1 : List Char) (prevRow : List Nat) : List Nat :=
  let first := prevRow.headD 0 + 1
  first :: nextRowAux c str1 (prevRow.headD 0) first prevRow.tail

/-- `levenshteinDistance` of part_000: run the DP over all rows and read off
the bottom-right entry. -/
def levenshteinDistance (str1 str2 : List Char) : Nat :=
  let row0 := List.range (str1.length + 1)
  let finalRow := str2.foldl (fun row c => nextRow c str1 row) row0
  finalRow.getLastD 0

/-- `levenshteinDistance` applied to Lean strings (the source compares JS
strings). -/
def levenshteinDistanceS (a b : String) : Nat :=
  levenshteinDistance a.data b.data

/-- Reference form of the DP recurrence, indexed by prefix lengths:
`levAux str1 str2 i j = matrix[i][j]`.  Used only to prove properties of
`levenshteinDistance`; the executable definition above is the embedding of
the source loops. -/
def levAux (str1 str2 : List Char) : Nat → Nat → Nat
  | 0, j => j
  | i + 1, 0 => i + 1
  | i + 1, j + 1 =>
    if str2.getD i ' ' = str1.getD j ' ' then
      levAux str1 str2 i j
    else
      min (levAux str1 str2 i j)
        (min (levAux str1 str2 (i + 1) j) (levAux str1 str2 i (j + 1))) + 1
  termination_by i j => i + j

/-! ## Lexical relevance matcher
(`validateSemanticRelevance` part_000 lines 431-498,
`checkBusinessRelevance` part_000 lines 384-428) -/

/-- Result record of `validateSemanticRelevance` (`{ isRelevant, reason? }`). -/
structure RelevanceResult where
  isRelevant : Bool
  reason : Option String
  deriving Repr, DecidableEq

/-- The `typeCategories` object, in insertion order (JS `Object.entries`
iterates string keys in insertion order). -/
def typeCategories : List (String × List String) :=
  [("food", ["restaurant", "cafe", "bar", "food", "meal_takeaway", "bakery", "meal_delivery"]),
   ("accommodation", ["lodging", "hotel", "hostel", "guest_house"]),
   ("education", ["school", "university", "library", "educational_institution"]),
   ("entertainment", ["amusement_park", "movie_theater", "night_club", "casino", "bowling_alley"]),
   ("shopping", ["shopping_mall", "store", "clothing_store", "book_store", "electronics_store"]),
   ("health", ["hospital", "doctor", "dentist", "pharmacy", "health", "gym"]),
   ("culture", ["museum", "art_gallery", "library", "cultural_center"]),
   ("worship", ["church", "place_of_worship", "temple", "mosque", "synagogue"]),
   ("transport", ["airport", "bus_station", "subway_station", "train_station"]),
   ("finance", ["bank", "atm", "insurance_agency", "accounting"]),
   ("government", ["city_hall", "local_government_office", "embassy", "courthouse"])]

/-- The `for (const [category, types] of Object.entries(typeCategories))`
loop with its `break`: the first category one of whose type keywords overlaps
a query token (either containment direction). -/
def findQueryCategory (queryTokens : List String) : Option (String × List String) :=
  typeCategories.find? (fun ct =>
    queryTokens.any (fun token =>
      ct.2.any (fun ty => jsIncludes ty token || jsIncludes token ty)))

/-- `validateSemanticRelevance(businessName, businessTypes, originalQuery)`.
`safeBusinessTypes` is the argument itself (the `|| []` default only guards a
JS `undefined` argument, which the call sites never pass in the model). -/
def validateSemanticRelevance (businessName : String) (businessTypes : List String)
    (originalQuery : String) : RelevanceResult :=
  let businessLower := jsLower businessName
  let queryLower := jsLower originalQuery
  let queryTokens := (jsSplit queryLower " ").filter (fun t => 2 < t.length)
  let businessTokens := (jsSplit businessLower " ").filter (fun t => 2 < t.length)
  match findQueryCategory queryTokens with
  | some (category, expectedTypes) =>
    -- query classified into a concrete category
    let businessMatchesCategory := businessTypes.any (fun ty => expectedTypes.contains ty)
    if !businessMatchesCategory &&
        !(expectedTypes.any (fun kw => jsIncludes businessLower kw)) then
      { isRelevant := false,
        reason := some ("business type mismatch - expected " ++ category ++ ", got " ++
          joinComma businessTypes) }
    else
      -- keyword-overlap check (the result is `isRelevant := true` on every
      -- remaining path, exactly as in the source, which falls through to a
      -- final `return { isRelevant: true }`)
      let commonTokens := queryTokens.filter (fun qTok =>
        businessTokens.any (fun bTok =>
          jsIncludes qTok bTok || jsIncludes bTok qTok ||
            levenshteinDistanceS qTok bTok ≤ 2))
      if !commonTokens.isEmpty then { isRelevant := true, reason := none }
      else { isRelevant := true, reason := none }
  | none =>
    -- queryCategory stays "general": accepted by the overlap-or-general rule
    { isRelevant := true, reason := none }
where
  /-- JS `arr.join(", ")` used in the mismatch reason. -/
  joinComma : List String → String
    | [] => ""
    | [s] => s
    | s :: rest => s ++ ", " ++ joinComma rest

/-- The `businessKeywords` list of `checkBusinessRelevance`. -/
def businessKeywords : List String :=
  ["restaurant", "cafe", "bar", "bistro", "eatery", "diner", "grill", "kitchen",
   "tavern", "pub", "lounge", "izakaya", "ramen", "sushi", "pizza", "burger",
   "food", "dining", "bakery", "brewery", "hotel", "hostel", "museum", "gallery",
   "theater", "cinema", "gym", "spa", "shop", "store", "market", "university",
   "school", "library", "park", "center", "studio", "club", "venue"]

/-- The `entertainmentKeywords` list of `checkBusinessRelevance`. -/
def entertainmentKeywords : List String :=
  ["theater", "cinema", "arcade", "club", "karaoke", "gaming", "entertainment",
   "theme", "experience", "gallery", "museum"]

/-- The `obviouslyWrongKeywords` list of `checkBusinessRelevance`. -/
def obviouslyWrongKeywords : List String :=
  ["hospital", "clinic", "medical", "doctor", "dental", "pharmacy", "church",
   "temple", "mosque", "synagogue", "government", "city hall", "embassy",
   "school", "university", "college"]

/-- `checkBusinessRelevance(originalPlaceName, businessName, businessTypes,
originalQuery)` — the relevance decision used by the enrichment stage.  The
source also lowercases `originalPlaceName` but never uses the result; the
argument is kept to mirror the signature. -/
def checkBusinessRelevance (originalPlaceName businessName : String)
    (businessTypes : List String) (originalQuery : String) : Bool :=
  let _originalLower := jsLower originalPlaceName
  let businessLower := jsLower businessName
  let queryLower := jsLower originalQuery
  let relevanceCheck := validateSemanticRelevance businessName businessTypes originalQuery
  if !relevanceCheck.isRelevant then
    false
  else
    let hasBusinessIndicators :=
      businessKeywords.any (fun kw => jsIncludes businessLower kw) ||
        businessTypes.length > 0
    let hasEntertainmentIndicators :=
      entertainmentKeywords.any (fun kw => jsIncludes businessLower kw)
    if hasBusinessIndicators || hasEntertainmentIndicators then
      true
    else
      let queryIsNotMedical :=
        !(jsIncludes queryLower "medical") && !(jsIncludes queryLower "hospital") &&
          !(jsIncludes queryLower "doctor")
      let businessIsMedical :=
        (obviouslyWrongKeywords.take 6).any (fun kw => jsIncludes businessLower kw)
      if queryIsNotMedical && businessIsMedical then
        false
      else
        true

/-! ## `JSON.parse` model

Executable recursive-descent parser for JSON, used to embed
`JSON.parse(cleanContent)` in `generatePlacesWithOpenAI`.  Strings support the
standard escapes (including `\uXXXX`); numbers are modelled without the
exponent form and without the leading-zero restriction — a simplification that
never affects a theorem here, because every pipeline theorem treats the
parse-success and the parse-failure branch alike, and the concrete inputs used
in witnesses and counterexamples stay inside the modelled fragment. -/

/-- JSON values. -/
inductive Json where
  | null : Json
  | bool : Bool → Json
  | num : Rat → Json
  | str : String → Json
  | arr : List Json → Json
  | obj : List (String × Json) → Json
  deriving Repr

/-- JSON insignificant whitespace. -/
def jsonWs (c : Char) : Bool :=
  c = ' ' || c = '\t' || c = '\n' || c = '\r'

/-- Skip insignificant whitespace. -/
def skipWs (l : List Char) : List Char :=
  l.dropWhile jsonWs

/-- Hex digit value. -/
def hexVal (c : Char) : Option Nat :=
  if '0' ≤ c ∧ c ≤ '9' then some (c.toNat - '0'.toNat)
  else if 'a' ≤ c ∧ c ≤ 'f' then some (c.toNat - 'a'.toNat + 10)
  else if 'A' ≤ c ∧ c ≤ 'F' then some (c.toNat - 'A'.toNat + 10)
  else none

/-- Parse the body of a JSON string literal (the opening quote already
consumed); returns the decoded characters and the input after the closing
quote. -/
def parseStrBody : List Char → Option (List Char × List Char)
  | [] => none
  | '"' :: rest => some ([], rest)
  | '\\' :: esc =>
    match esc with
    | '"' :: rest => (parseStrBody rest).map (fun p => ('"' :: p.1, p.2))
    | '\\' :: rest => (parseStrBody rest).map (fun p => ('\\' :: p.1, p.2))
    | '/' :: rest => (parseStrBody rest).map (fun p => ('/' :: p.1, p.2))
    | 'n' :: rest => (parseStrBody rest).map (fun p => ('\n' :: p.1, p.2))
    | 't' :: rest => (parseStrBody rest).map (fun p => ('\t' :: p.1, p.2))
    | 'r' :: rest => (parseStrBody rest).map (fun p => ('\r' :: p.1, p.2))
    | 'b' :: rest => (parseStrBody rest).map (fun p => ('\x08' :: p.1, p.2))
    | 'f' :: rest => (parseStrBody rest).map (fun p => ('\x0c' :: p.1, p.2))
    | 'u' :: h1 :: h2 :: h3 :: h4 :: rest =>
      match hexVal h1, hexVal h2, hexVal h3, hexVal h4 with
      | some a, some b, some c, some d =>
        let n := ((a * 16 + b) * 16 + c) * 16 + d
        if h : n.isValidChar then
          (parseStrBody rest).map (fun p => (Char.ofNatAux n h :: p.1, p.2))
        else none
      | _, _, _, _ => none
    | _ => none
  | c :: rest => (parseStrBody rest).map (fun p => (c :: p.1, p.2))

/-- Digit run. -/
def takeDigits (l : List Char) : List Char × List Char :=
  (l.takeWhile Char.isDigit, l.dropWhile Char.isDigit)

/-- Digit list to natural number. -/
def digitsToNat (ds : List Char) : Nat :=
  ds.foldl (fun acc c => acc * 10 + (c.toNat - '0'.toNat)) 0

/-- Parse a JSON number (sign, integer part, optional fraction). -/
def parseNum (l : List Char) : Option (Rat × List Char) :=
  let (neg, l1) := match l with
    | '-' :: rest => (true, rest)
    | _ => (false, l)
  let (intDs, l2) := takeDigits l1
  if intDs.isEmpty then none
  else
    let intPart : Rat := (digitsToNat intDs : Nat)
    let (value, l3) : Rat × List Char :=
      match l2 with
      | '.' :: rest =>
        let (fracDs, l3) := takeDigits rest
        if fracDs.isEmpty then (intPart, l2)
        else (intPart + (digitsToNat fracDs : Rat) / ((10 : Rat) ^ fracDs.length), l3)
      | _ => (intPart, l2)
    some (if neg then -value else value, l3)

mutual

/-- Parse one JSON value (leading whitespace allowed).  The fuel bounds the
recursion depth and is instantiated generously by `parseJson`. -/
def parseValue : Nat → List Char → Option (Json × List Char)
  | 0, _ => none
  | fuel + 1, input =>
    match skipWs input with
    | 'n' :: 'u' :: 'l' :: 'l' :: rest => some (Json.null, rest)
    | 't' :: 'r' :: 'u' :: 'e' :: rest => some (Json.bool true, rest)
    | 'f' :: 'a' :: 'l' :: 's' :: 'e' :: rest => some (Json.bool false, rest)
    | '"' :: rest =>
      (parseStrBody rest).map (fun p => (Json.str ⟨p.1⟩, p.2))
    | '[' :: rest =>
      (parseArrayElems fuel rest).map (fun p => (Json.arr p.1, p.2))
    | '{' :: rest =>
      (parseObjFields fuel rest).map (fun p => (Json.obj p.1, p.2))
    | l =>
      (parseNum l).map (fun p => (Json.num p.1, p.2))

/-- Parse the elements of an array (the opening bracket already consumed). -/
def parseArrayElems : Nat → List Char → Option (List Json × List Char)
  | 0, _ => none
  | fuel + 1, input =>
    match skipWs input with
    | ']' :: rest => some ([], rest)
    | l =>
      match parseValue fuel l with
      | none => none
      | some (v, r) =>
        match skipWs r with
        | ',' :: r2 =>
          (parseArrayElems fuel r2).map (fun p => (v :: p.1, p.2))
        | ']' :: r2 => some ([v], r2)
        | _ => none

/-- Parse the fields of an object (the opening brace already consumed). -/
def parseObjFields : Nat → List Char → Option (List (String × Json) × List Char)
  | 0, _ => none
  | fuel + 1, input =>
    match skipWs input with
    | '}' :: rest => some ([], rest)
    | '"' :: rest =>
      match parseStrBody rest with
      | none => none
      | some (key, r) =>
        match skipWs r with
        | ':' :: r2 =>
          match parseValue fuel r2 with
          | none => none
          | some (v, r3) =>
            match skipWs r3 with
            | ',' :: r4 =>
              (parseObjFields fuel r4).map (fun p => ((⟨key⟩, v) :: p.1, p.2))
            | '}' :: r4 => some ([(⟨key⟩, v)], r4)
            | _ => none
        | _ => none
    | _ => none

end

/-- `JSON.parse` on a string: whole-input parse, trailing whitespace only. -/
def parseJson (s : String) : Option Json :=
  match parseValue (2 * s.length + 4) s.data with
  | some (v, rest) => if skipWs rest = [] then some v else none
  | none => none

/-- Field lookup on a parsed JSON object (for duplicate keys `JSON.parse`
keeps the last occurrence, like JS object-literal evaluation). -/
def jLookup (fields : List (String × Json)) (k : String) : Option Json :=
  ((fields.filter (fun f => f.1 = k)).getLast?).map (fun f => f.2)

/-- Read a JSON string field. -/
def jStr? : Json → Option String
  | Json.str s => some s
  | _ => none

/-- Read a JSON number field. -/
def jNum? : Json → Option Rat
  | Json.num q => some q
  | _ => none

/-! ## Code-fence stripping (`generatePlacesWithOpenAI`, part_000 lines 228-234) -/

/-- The fence-stripping step applied to the generative-text content before
`JSON.parse`:

    let cleanContent = content
    if (content.includes("```json"))
      cleanContent = content.split("```json")[1].split("```")[0].trim()
    else if (content.includes("```"))
      cleanContent = content.split("```")[1].split("```")[0].trim()
-/
def cleanContent (content : String) : String :=
  if jsIncludes content "```json" then
    jsTrim (((jsSplit ((jsSplit content "```json").getD 1 "") "```").getD 0 ""))
  else if jsIncludes content "```" then
    jsTrim (((jsSplit ((jsSplit content "```").getD 1 "") "```").getD 0 ""))
  else content

/-! ## The `Place` record

`QlooPlace` of part_000.  Every field a JS object may leave `undefined` is an
`Option`; a JS template literal renders `undefined` as the string
`"undefined"`, which `jsOrS`/`getD "undefined"` reproduce where the source
interpolates possibly-missing fields. -/

/-- The place record flowing through the pipeline (`QlooPlace` plus the raw
candidate shape fed to enrichment — the source types the latter as `any`). -/
structure JPlace where
  id : Option String := none
  name : Option String := none
  address : Option String := none
  image : Option String := none
  rating : Option Rat := none
  distance : Option Rat := none
  explanation : Option String := none
  originalQuery : Option String := none
  deriving Repr, DecidableEq

/-! ## Regex field extraction (`extractPlacesManually`, part_000 lines 286-321) -/

/-- Try to match `/"<field>":\s*"([^"]+)"/` at the start of `l`; on success
return the capture and the input after the whole match. -/
def matchFieldAt (field : List Char) (l : List Char) : Option (List Char × List Char) :=
  let pat := '"' :: field ++ ['"', ':']
  if pat.isPrefixOf l then
    let r1 := (l.drop pat.length).dropWhile jsIsWs
    match r1 with
    | '"' :: r2 =>
      let cap := r2.takeWhile (fun c => c ≠ '"')
      match r2.dropWhile (fun c => c ≠ '"') with
      | '"' :: r3 => if cap.isEmpty then none else some (cap, r3)
      | _ => none
    | _ => none
  else none

/-- Global-regex scan for `/"<field>":\s*"([^"]+)"/g`: collect the capture of
every non-overlapping match, resuming after each match end. -/
def scanFieldAux (field : List Char) : Nat → List Char → List (List Char)
  | 0, _ => []
  | _ + 1, [] => []
  | fuel + 1, c :: cs =>
    match matchFieldAt field (c :: cs) with
    | some (cap, rest) => cap :: scanFieldAux field fuel rest
    | none => scanFieldAux field fuel cs

/-- All captures of `/"<field>":\s*"([^"]+)"/g` over `content` (the source then
re-matches each full match to read the capture group; the scanner returns the
captures directly, which is the same list). -/
def scanField (field : String) (content : String) : List String :=
  (scanFieldAux field.data (content.length + 1) content.data).map (⟨·⟩)

/-- Try to match `/"rating":\s*([0-9.]+)/` at the start of `l`. -/
def matchRatingAt (l : List Char) : Option (List Char × List Char) :=
  let pat := ('"' :: "rating".data) ++ ['"', ':']
  if pat.isPrefixOf l then
    let r1 := (l.drop pat.length).dropWhile jsIsWs
    let cap := r1.takeWhile (fun c => c.isDigit || c = '.')
    if cap.isEmpty then none else some (cap, r1.drop cap.length)
  else none

/-- Global-regex scan for `/"rating":\s*([0-9.]+)/g`. -/
def scanRatingAux : Nat → List Char → List (List Char)
  | 0, _ => []
  | _ + 1, [] => []
  | fuel + 1, c :: cs =>
    match matchRatingAt (c :: cs) with
    | some (cap, rest) => cap :: scanRatingAux fuel rest
    | none => scanRatingAux fuel cs

/-- All numeric captures of the rating regex over `content`. -/
def scanRatingField (content : String) : List String :=
  (scanRatingAux (content.length + 1) content.data).map (⟨·⟩)

/-- Model of JS `parseFloat` on a `[0-9.]+` capture: leading digits, one
optional fraction, everything after a second dot ignored; `none` models `NaN`
(input of dots only). -/
def parseFloatQ (s : String) : Option Rat :=
  let (intDs, l2) := takeDigits s.data
  match intDs, l2 with
  | [], '.' :: rest =>
    let (fr, _) := takeDigits rest
    if fr.isEmpty then none
    else some ((digitsToNat fr : Rat) / ((10 : Rat) ^ fr.length))
  | [], _ => none
  | ds, '.' :: rest =>
    let (fr, _) := takeDigits rest
    some ((digitsToNat ds : Rat) + (digitsToNat fr : Rat) / ((10 : Rat) ^ fr.length))
  | ds, _ => some ((digitsToNat ds : Rat))

/-! ## Stock images and the static fallback
(`getUnsplashImage` part_000 lines 324-351,
`getHardcodedPlaces` part_000 lines 354-381) -/

/-- The `baseImages` list of `getUnsplashImage`. -/
def baseImages : List String :=
  ["https://images.unsplash.com/photo-1501339847302-ac426a4a7cbb?w=800",
   "https://images.unsplash.com/photo-1554118811-1e0d58224f24?w=800",
   "https://images.unsplash.com/photo-1509042239860-f550ce710b93?w=800",
   "https://images.unsplash.com/photo-1517248135467-4c7edcad34c4?w=800",
   "https://images.unsplash.com/photo-1555396273-367ea4eb4db5?w=800"]

/-- `getUnsplashImage(query, index)`: themed stock photo by query keyword. -/
def getUnsplashImage (query : String) (index : Nat) : String :=
  if jsIncludes (jsLower query) "coffee" || jsIncludes (jsLower query) "cafe" then
    ["https://images.unsplash.com/photo-1501339847302-ac426a4a7cbb?w=800",
     "https://images.unsplash.com/photo-1554118811-1e0d58224f24?w=800",
     "https://images.unsplash.com/photo-1506619216599-9d16d0903dfd?w=800"].getD (index % 3) ""
  else if jsIncludes (jsLower query) "book" || jsIncludes (jsLower query) "vintage" then
    ["https://images.unsplash.com/photo-1481627834876-b7833e8f5570?w=800",
     "https://images.unsplash.com/photo-1507003211169-0a1dd7228f2d?w=800",
     "https://images.unsplash.com/photo-1521587760476-6c12a4b040da?w=800"].getD (index % 3) ""
  else
    baseImages.getD (index % baseImages.length) ""

/-- `getHardcodedPlaces(city, query)`: the terminal static fallback list. -/
def getHardcodedPlaces (city : String) (query : String) : List JPlace :=
  [{ id := some "fallback-1",
     name := some "Blue Bottle Coffee",
     address := some ("Central " ++ city),
     image := some "https://images.unsplash.com/photo-1501339847302-ac426a4a7cbb?w=800",
     rating := some ((9 : Rat) / 2),
     originalQuery := some query },
   { id := some "fallback-2",
     name := some "Local Artisan Cafe",
     address := some ("Downtown " ++ city),
     image := some "https://images.unsplash.com/photo-1554118811-1e0d58224f24?w=800",
     rating := some ((43 : Rat) / 10),
     originalQuery := some query },
   { id := some "fallback-3",
     name := some "Specialty Coffee Roasters",
     address := some ("Arts District, " ++ city),
     image := some "https://images.unsplash.com/photo-1509042239860-f550ce710b93?w=800",
     rating := some ((47 : Rat) / 10),
     originalQuery := some query }]

/-- One iteration of the extraction loop: push a place when both the name and
the address capture exist at index `i` (and are truthy). -/
def extractStep (nameMatches addressMatches ratingMatches explanationMatches : List String)
    (query : String) (acc : List JPlace) (i : Nat) : List JPlace :=
  match nameMatches.get? i, addressMatches.get? i with
  | some name, some address =>
    if name ≠ "" ∧ address ≠ "" then
      acc ++ [{ id := some ("manual-" ++ toString i),
                name := some name,
                address := some address,
                rating := some (match ratingMatches.get? i with
                  | some r => (parseFloatQ r).getD 0
                  | none => (9 : Rat) / 2),
                explanation := explanationMatches.get? i,
                image := some (getUnsplashImage query i),
                originalQuery := some query : JPlace }]
    else acc
  | _, _ => acc

/-- `extractPlacesManually(content, query, city, limit)`: pair up the
field captures index by index; an entry is pushed only when both the name and
the address capture at that index exist (and are truthy).  `city` is accepted
and unused, as in the source.  A `NaN` from `parseFloat` (impossible for these
captures unless the capture is dots only) is modelled as rating `0`. -/
def extractPlacesManually (content query _city : String) (limit : Int) : List JPlace :=
  let nameMatches := scanField "name" content
  let addressMatches := scanField "address" content
  let ratingMatches := scanRatingField content
  let explanationMatches := scanField "explanation" content
  if !nameMatches.isEmpty && !addressMatches.isEmpty then
    let iters := (min (nameMatches.length : Int) limit).toNat
    (List.range iters).foldl
      (extractStep nameMatches addressMatches ratingMatches explanationMatches query)
      []
  else []

/-! ## External world: environment, oracle, call trace -/

/-- Template-literal rendering of a possibly-`undefined` JS string
(`${undefined}` is the string `"undefined"`). -/
def jsTpl (o : Option String) : String :=
  o.getD "undefined"

/-- Tags of the external calls the pipeline can make, recorded in the trace. -/
inductive ExtCall where
  | qlooFetch (strategy : Nat)
  | openaiPlacesFetch
  | googleFetch
  | openaiExplainFetch
  deriving Repr, DecidableEq

/-- The process environment (`process.env.*`).  A key that is set to the empty
string is falsy in JS, which `jsTruthyS` reproduces. -/
structure Env where
  qlooApiKey : Option String := none
  openaiApiKey : Option String := none
  googleMapsApiKey : Option String := none

/-- One entity of a Qloo `/search` response (the fields the code reads). -/
structure QlooEntity where
  entity_id : Option String := none
  name : Option String := none
  types : List String := []
  address : Option String := none
  disambiguation : Option String := none
  business_rating : Option Rat := none
  image_url : Option String := none
  description : Option String := none
  deriving Repr, DecidableEq

/-- Outcome of one Qloo `fetch`: a rejected promise (the exception leaves
`callQlooAPI`), a non-2xx status (try the next strategy), or a parsed
`{results: [...]}` body. -/
inductive QlooHttp where
  | netErr
  | badStatus
  | ok (results : List QlooEntity)

/-- One result of a Google Places text search.  `name` and
`formatted_address` are modelled as present: the code reads them both through
`|| ""` guards and raw, and no claim distinguishes a missing field from an
empty one. -/
structure GoogleCandidate where
  name : String
  formatted_address : String
  rating : Option Rat := none
  types : List String := []
  photos : List String := []
  place_id : Option String := none
  deriving Repr, DecidableEq

/-- Outcome of one Google Places `fetch`: a network error or abort-timeout
(skip the candidate), a non-2xx status (skip), or a parsed result list. -/
inductive GoogleHttp where
  | fetchErr
  | badStatus
  | ok (results : List GoogleCandidate)

/-- Outcome of one OpenAI chat `fetch`; `ok` carries
`choices[0]?.message?.content`. -/
inductive OpenAIHttp where
  | netErr
  | badStatus
  | ok (content : Option String)

/-- The network, one response stream per provider, consumed in call order. -/
structure Oracle where
  qloo : Nat → QlooHttp
  openaiPlaces : Nat → OpenAIHttp
  google : Nat → GoogleHttp
  explain : Nat → OpenAIHttp

/-- Per-request call state: the next index into each oracle stream, plus the
trace of calls made so far (in order). -/
structure World where
  qlooIdx : Nat := 0
  openaiIdx : Nat := 0
  googleIdx : Nat := 0
  explainIdx : Nat := 0
  trace : List ExtCall := []
  deriving Repr, DecidableEq

/-- Issue one Qloo search (strategy `i`). -/
def qlooFetchM (o : Oracle) (i : Nat) (w : World) : QlooHttp × World :=
  (o.qloo w.qlooIdx,
    { w with qlooIdx := w.qlooIdx + 1, trace := w.trace ++ [ExtCall.qlooFetch i] })

/-- Issue one OpenAI place-generation call. -/
def openaiFetchM (o : Oracle) (w : World) : OpenAIHttp × World :=
  (o.openaiPlaces w.openaiIdx,
    { w with openaiIdx := w.openaiIdx + 1, trace := w.trace ++ [ExtCall.openaiPlacesFetch] })

/-- Issue one Google Places text search. -/
def googleFetchM (o : Oracle) (w : World) : GoogleHttp × World :=
  (o.google w.googleIdx,
    { w with googleIdx := w.googleIdx + 1, trace := w.trace ++ [ExtCall.googleFetch] })

/-- Issue one OpenAI explanation call. -/
def explainFetchM (o : Oracle) (w : World) : OpenAIHttp × World :=
  (o.explain w.explainIdx,
    { w with explainIdx := w.explainIdx + 1, trace := w.trace ++ [ExtCall.openaiExplainFetch] })

/-! ## Qloo client (`callQlooAPI` part_000 lines 31-137,
`convertQlooResponse` lines 140-154) -/

/-- The entity filter of `callQlooAPI`: a place/destination/locality type tag
and a truthy address or disambiguation. -/
def entityRelevant (e : QlooEntity) : Bool :=
  (e.types.contains "urn:entity:place" ||
   e.types.contains "urn:entity:destination" ||
   e.types.contains "urn:entity:locality") &&
  (jsTruthyS e.address || jsTruthyS e.disambiguation)

/-- The strategy loop of `callQlooAPI`: four search strategies, stopping at
the first whose response contains at least one relevant entity.  A rejected
fetch propagates as `Except.error` (caught by the handler); exhausting all
strategies yields an empty entity list, which is a success. -/
def qlooStrategyLoop (o : Oracle) : List Nat → World → Except Unit (List QlooEntity) × World
  | [], w => (Except.ok [], w)
  | i :: rest, w =>
    let (res, w1) := qlooFetchM o i w
    match res with
    | QlooHttp.netErr => (Except.error (), w1)
    | QlooHttp.badStatus => qlooStrategyLoop o rest w1
    | QlooHttp.ok entities =>
      if entities.length > 0 then
        let relevantPlaces := entities.filter entityRelevant
        if relevantPlaces.length > 0 then (Except.ok relevantPlaces, w1)
        else qlooStrategyLoop o rest w1
      else qlooStrategyLoop o rest w1

/-- `callQlooAPI(query, city, type)`.  The query and city only shape the
request URLs, which the oracle absorbs. -/
def callQlooAPI (env : Env) (o : Oracle) (_query _city : String) (w : World) :
    Except Unit (List QlooEntity) × World :=
  if !jsTruthyS env.qlooApiKey then (Except.error (), w)
  else qlooStrategyLoop o [0, 1, 2, 3] w

/-- `convertQlooResponse`: Qloo entities to places. -/
def convertQlooResponse (entities : List QlooEntity) (query city : String) : List JPlace :=
  entities.enum.map (fun ie =>
    { id := some (jsOrS ie.2.entity_id ("qloo-" ++ toString ie.1)),
      name := some (jsOrS ie.2.name "Unknown Place"),
      address := some (jsOrS ie.2.address (jsOrS ie.2.disambiguation city)),
      rating := some (jsOrRat ie.2.business_rating ((9 : Rat) / 2)),
      image := some (jsOrS ie.2.image_url
        "https://images.unsplash.com/photo-1555396273-367ea4eb4db5?w=800&q=80"),
      explanation := some (jsOrS ie.2.description
        "A culturally similar place with matching vibe and atmosphere."),
      originalQuery := some query })

/-! ## Enrichment stage (`enrichPlacesWithGoogleData`, part_000 lines 530-684)
and generation stage (`generatePlacesWithOpenAI`, part_000 lines 157-283) -/

/-- Photo URL built from a photo reference (inlined in the source). -/
def googlePhotoUrl (env : Env) (ref : String) : String :=
  "https://maps.googleapis.com/maps/api/place/photo?maxwidth=800&photoreference=" ++
    ref ++ "&key=" ++ jsTpl env.googleMapsApiKey

/-- The inner `for (const result of data.results.slice(0, 2))` scan: first
result that is in the city, passes the relevance check, and is not in the
dedup set. -/
def findGoogleCandidate (city : String) (p : JPlace) (searchQuery : String)
    (seen : List String) : List GoogleCandidate → Option GoogleCandidate
  | [] => none
  | result :: rest =>
    let address := result.formatted_address
    let cityLower := jsLower city
    let businessName := result.name
    let originalPlaceName := jsOrS p.name ""
    let isInCity := jsIncludes (jsLower address) cityLower ||
      jsIncludes (jsLower address) (jsReplaceFirstSpace cityLower)
    if !isInCity then
      findGoogleCandidate city p searchQuery seen rest
    else if !checkBusinessRelevance originalPlaceName businessName result.types
        (jsOrS p.originalQuery searchQuery) then
      findGoogleCandidate city p searchQuery seen rest
    else if seen.contains (businessName ++ "|" ++ address) then
      findGoogleCandidate city p searchQuery seen rest
    else
      some result

/-- The main validation loop of `enrichPlacesWithGoogleData` (the candidate
list is already truncated to `maxPlacesToCheck`; the 100 ms pacing delay has
no observable effect in the model). -/
def enrichLoop (env : Env) (o : Oracle) (city : String) :
    List JPlace → Nat → Int → List String → List JPlace → World → List JPlace × World
  | [], _, _, _, acc, w => (acc, w)
  | p :: rest, idx, target, seen, acc, w =>
    if (acc.length : Int) < target then
      let queryTokens := tokensGt2 (jsOrS p.originalQuery "")
      let contextKeywordsJoined := joinSpace (queryTokens.take 2)
      let contextKeywords := if contextKeywordsJoined = "" then "restaurant"
        else contextKeywordsJoined
      let searchQuery := jsTpl p.name ++ " " ++ contextKeywords ++ " " ++ city
      let (res, w1) := googleFetchM o w
      match res with
      | GoogleHttp.fetchErr => enrichLoop env o city rest (idx + 1) target seen acc w1
      | GoogleHttp.badStatus => enrichLoop env o city rest (idx + 1) target seen acc w1
      | GoogleHttp.ok results =>
        if results.isEmpty then
          enrichLoop env o city rest (idx + 1) target seen acc w1
        else
          match findGoogleCandidate city p searchQuery seen (results.take 2) with
          | none => enrichLoop env o city rest (idx + 1) target seen acc w1
          | some cand =>
            let imageUrl := if cand.photos.isEmpty then getUnsplashImage "restaurant" idx
              else googlePhotoUrl env (cand.photos.headD "")
            let enriched : JPlace :=
              { id := some (jsOrS p.id ("google-" ++ jsTpl cand.place_id)),
                name := some cand.name,
                address := some cand.formatted_address,
                rating := some (jsOrRat cand.rating 4),
                explanation := some (jsOrS p.explanation "Great place matching your taste"),
                image := some imageUrl,
                originalQuery := some (jsOrS p.originalQuery "restaurants") }
            enrichLoop env o city rest (idx + 1) target
              (seen ++ [cand.name ++ "|" ++ cand.formatted_address])
              (acc ++ [enriched]) w1
    else (acc, w)

/-- A parsed generative-text array element viewed as a raw place.  String
fields of other JSON types are modelled as absent (the code would stringify
them in templates; no exercised input has such a field). -/
def jsonToPlace (v : Json) : JPlace :=
  match v with
  | Json.obj fields =>
    { id := (jLookup fields "id").bind jStr?,
      name := (jLookup fields "name").bind jStr?,
      address := (jLookup fields "address").bind jStr?,
      rating := (jLookup fields "rating").bind jNum?,
      explanation := (jLookup fields "explanation").bind jStr?,
      image := (jLookup fields "image").bind jStr?,
      originalQuery := (jLookup fields "originalQuery").bind jStr? }
  | _ => {}

/-- Call tags for the mutually recursive stage pair. -/
inductive PipeCall where
  | gen (query city : String) (limit : Int)
  | enrich (places : List JPlace) (city : String) (maxResults : Int)

/-- `generatePlacesWithOpenAI` (tag `.gen`) and `enrichPlacesWithGoogleData`
(tag `.enrich`) as one fuel-indexed function.  `none` means the fuel ran out
(the source can recurse unboundedly through the zero-validated fallback when
every provider keeps answering); every theorem is conditioned on a `some`
result.  The places cache is elided (fresh process, no key is written before
it could be read within one request whose generation stage runs at most once
per key). -/
def pipe (env : Env) (o : Oracle) : Nat → PipeCall → World → Option (List JPlace × World)
  | 0, _, _ => none
  | fuel + 1, PipeCall.gen query city limit, w =>
    if !jsTruthyS env.openaiApiKey then some (getHardcodedPlaces city query, w)
    else
      let (res, w1) := openaiFetchM o w
      match res with
      | OpenAIHttp.netErr => some (getHardcodedPlaces city query, w1)
      | OpenAIHttp.badStatus => some (getHardcodedPlaces city query, w1)
      | OpenAIHttp.ok contentOpt =>
        let content := contentOpt.map jsTrim
        if !jsTruthyS content then some (getHardcodedPlaces city query, w1)
        else
          let c := content.getD ""
          match parseJson (cleanContent c) with
          | some (Json.arr l) =>
            if l.length > 0 then
              match pipe env o fuel
                  (PipeCall.enrich ((jsTake limit l).map jsonToPlace) city limit) w1 with
              | none => none
              | some ew =>
                some (ew.1.map (fun pl => { pl with originalQuery := some query }), ew.2)
            else some (getHardcodedPlaces city query, w1)
          | some _ => some (getHardcodedPlaces city query, w1)
          | none =>
            let manualPlaces := extractPlacesManually c query city limit
            if manualPlaces.length > 0 then
              match pipe env o fuel (PipeCall.enrich manualPlaces city limit) w1 with
              | none => none
              | some ew =>
                some (ew.1.map (fun pl => { pl with originalQuery := some query }), ew.2)
            else some (getHardcodedPlaces city query, w1)
  | fuel + 1, PipeCall.enrich places city maxResults, w =>
    if !jsTruthyS env.googleMapsApiKey then
      some ((jsTake maxResults places).enum.map (fun ip =>
        { id := some (jsOrS ip.2.id ("openai-" ++ toString ip.1)),
          name := ip.2.name,
          address := ip.2.address,
          rating := some (jsOrRat ip.2.rating ((9 : Rat) / 2)),
          explanation := some (jsOrS ip.2.explanation "Great place matching your taste"),
          image := some (getUnsplashImage "restaurant" ip.1),
          originalQuery := some (jsOrS ip.2.originalQuery "restaurants") }), w)
    else
      let maxPlacesToCheck := min places.length 15
      let targetPlaces : Int := min maxResults 15
      let vw := enrichLoop env o city (places.take maxPlacesToCheck) 0 targetPlaces [] [] w
      if vw.1.isEmpty then
        -- zero-validated fallback; the surrounding `catch` that would switch
        -- to hardcoded places is dead code, since `generatePlacesWithOpenAI`
        -- never rejects
        let fq := jsOrS (places.head?.bind (fun p => p.originalQuery)) "restaurants"
        match pipe env o fuel (PipeCall.gen fq city (min maxResults 10)) vw.2 with
        | none => none
        | some ow => some (vw.1 ++ ow.1, ow.2)
      else some (vw.1, vw.2)

/-- `generatePlacesWithOpenAI` through the pipe. -/
def generatePlacesWithOpenAI (env : Env) (o : Oracle) (fuel : Nat)
    (query city : String) (limit : Int) (w : World) : Option (List JPlace × World) :=
  pipe env o fuel (PipeCall.gen query city limit) w

/-- `enrichPlacesWithGoogleData` through the pipe. -/
def enrichPlacesWithGoogleData (env : Env) (o : Oracle) (fuel : Nat)
    (places : List JPlace) (city : String) (maxResults : Int) (w : World) :
    Option (List JPlace × World) :=
  pipe env o fuel (PipeCall.enrich places city maxResults) w

/-! ## Explanation generator (`generateExplanation`, part_000 lines 687-755) -/

/-- `generateExplanation(originalQuery, place)`.  The explanation cache is
elided (fresh process; a value is written only when the call that produced it
returns, so within one modelled request a lookup can only repeat an identical
pure computation).  With no OpenAI key, or when the call fails, the result
falls back to `place.explanation || <template>`; a successful call returns the
trimmed content (or a template when it is empty) and never consults
`place.explanation`. -/
def generateExplanation (env : Env) (o : Oracle) (originalQuery : String)
    (place : JPlace) (w : World) : String × World :=
  if !jsTruthyS env.openaiApiKey then
    (jsOrS place.explanation
      ("Perfect for someone seeking \"" ++ originalQuery ++
        "\" with its authentic flavors and welcoming atmosphere."), w)
  else
    let rw := explainFetchM o w
    match rw.1 with
    | OpenAIHttp.ok content =>
      ((jsOrS (content.map jsTrim)
        ("Perfect for \"" ++ originalQuery ++
          "\" lovers with its authentic style and flavors.")), rw.2)
    | OpenAIHttp.badStatus =>
      (jsOrS place.explanation
        ("Perfect for \"" ++ originalQuery ++
          "\" enthusiasts with its authentic approach and vibrant atmosphere."), rw.2)
    | OpenAIHttp.netErr =>
      (jsOrS place.explanation
        ("Perfect for \"" ++ originalQuery ++
          "\" enthusiasts with its authentic approach and vibrant atmosphere."), rw.2)

/-! ## Handler (part_000 lines 761-894) -/

/-- The response-processing `Promise.all`: one `generateExplanation` call per
place, results merged in input order (the model serialises the calls in that
order).  The processed object keeps id/name/address/image/rating/distance and
replaces the explanation; `originalQuery` is not part of the response shape. -/
def processPlaces (env : Env) (o : Oracle) (searchQuery : String) :
    List JPlace → World → List JPlace × World
  | [], w => ([], w)
  | p :: rest, w =>
    let ew := generateExplanation env o searchQuery p w
    let others := processPlaces env o searchQuery rest ew.2
    ({ id := p.id, name := p.name, address := p.address, image := p.image,
       explanation := some ew.1, rating := p.rating, distance := p.distance } :: others.1,
      others.2)

/-- Hex digit (both cases), as in the UUID regex character class. -/
def isHexDig (c : Char) : Bool :=
  c.isDigit || ('a' ≤ c && c ≤ 'f') || ('A' ≤ c && c ≤ 'F')

/-- The anchored case-insensitive UUID regex
`/^[0-9A-F]{8}-[0-9A-F]{4}-[0-9A-F]{4}-[0-9A-F]{4}-[0-9A-F]{12}$/i`:
five hyphen-separated hex runs of lengths 8-4-4-4-12 (hex runs cannot contain
a hyphen, so splitting on hyphens is exact). -/
def isUuid (s : String) : Bool :=
  match jsSplit s "-" with
  | [a, b, c, d, e] =>
    a.length = 8 && b.length = 4 && c.length = 4 && d.length = 4 && e.length = 12 &&
      (a.data ++ b.data ++ c.data ++ d.data ++ e.data).all isHexDig
  | _ => false

/-- The provider-branding marker searched for in explanations
(`"Qloo's Taste AI™"`, assembled character-wise to keep the file free of
string apostrophes). -/
def qlooBranding : String :=
  "Qloo" ++ String.singleton (Char.ofNat 39) ++ "s Taste AI" ++
    String.singleton (Char.ofNat 8482)

/-- The parsed request body (`RequestBody`); absent JSON keys are `none`. -/
structure ReqBody where
  type : Option String := none
  place_id : Option String := none
  query : Option String := none
  city : Option String := none
  limit : Option Int := none
  deriving Repr, DecidableEq

/-- The incoming event: method plus the parse of `event.body || "{}"`
(`none` models a body on which `JSON.parse` throws). -/
structure Req where
  httpMethod : String
  body : Option ReqBody
  deriving Repr, DecidableEq

/-- The handler response: HTTP status plus the JSON body fields the code can
emit (`error` for the error shapes, the rest for the 200 shape). -/
structure Resp where
  status : Nat
  error : Option String := none
  places : List JPlace := []
  query : Option String := none
  city : Option String := none
  source : Option String := none
  explanation : Option String := none
  deriving Repr, DecidableEq

/-- Step 1 of the handler: one guarded Qloo attempt (`taste` or `similar`).
A thrown Qloo error is caught and logged, leaving `places` empty; a Qloo
success with at least one converted place is enriched. -/
def qlooAttempt (env : Env) (o : Oracle) (fuel : Nat) (searchQuery city : String)
    (limit : Int) (w : World) : Option (List JPlace × World) :=
  let qw := callQlooAPI env o searchQuery city w
  match qw.1 with
  | Except.error _ => some ([], qw.2)
  | Except.ok entities =>
    let qlooPlaces := convertQlooResponse entities searchQuery city
    if qlooPlaces.length > 0 then
      pipe env o fuel (PipeCall.enrich qlooPlaces city limit) qw.2
    else some ([], qw.2)

/-- The exported `handler` of part_000.  `fuel` bounds the recursion depth of
the generation/enrichment fallback chain; `none` means the bound was hit. -/
def handler (env : Env) (o : Oracle) (fuel : Nat) (req : Req) : Option (Resp × World) :=
  if req.httpMethod ≠ "POST" then
    some ({ status := 405, error := some "Method not allowed" }, {})
  else
    match req.body with
    | none => some ({ status := 500, error := some "Internal server error" }, {})
    | some body =>
      let limit := body.limit.getD 50
      if !jsTruthyS body.city then
        some ({ status := 400, error := some "City is required" }, {})
      else
        let city := body.city.getD ""
        let searchQuery := jsOrS body.query (jsOrS body.place_id "")
        let afterTaste : Option (List JPlace × World) :=
          if body.type = some "taste" ∧ searchQuery ≠ "" then
            qlooAttempt env o fuel searchQuery city limit {}
          else some ([], {})
        afterTaste.bind (fun pw1 =>
          let afterSimilar : Option (List JPlace × World) :=
            if body.type = some "similar" ∧ searchQuery ≠ "" then
              qlooAttempt env o fuel searchQuery city limit pw1.2
            else some pw1
          afterSimilar.bind (fun pw2 =>
            let afterGen : Option (List JPlace × World) :=
              if pw2.1.isEmpty then
                pipe env o fuel (PipeCall.gen searchQuery city (min limit 10)) pw2.2
              else some pw2
            afterGen.bind (fun pw3 =>
              let places := pw3.1
              let prw := processPlaces env o searchQuery places pw3.2
              let isQlooSource := places.length > 0 &&
                (places.any (fun p => match p.explanation with
                    | some e => jsIncludes e qlooBranding
                    | none => false) ||
                 places.any (fun p => jsTruthyS p.id && isUuid (p.id.getD "")))
              let overallExplanation :=
                if prw.1.length > 0 then
                  if isQlooSource then
                    "Based on your taste for \"" ++ searchQuery ++ "\", these places in " ++
                      city ++ " share similar cultural vibes, atmospheres, and style preferences."
                  else
                    "These " ++ city ++ " establishments match your preference for \"" ++
                      searchQuery ++ "\" with similar ambience, cultural elements, and dining experiences."
                else ""
              some ({ status := 200,
                      places := prw.1,
                      query := some searchQuery,
                      city := some city,
                      source := some (if isQlooSource then "qloo" else "openai-fallback"),
                      explanation := some overallExplanation }, prw.2))))

/-! ## Wall-clock accounting

The code never measures time; a latency assignment attributes a duration to
every external call, and the elapsed time of a run is the sum over its trace.
This is how "the request took longer than the pipeline budget" is expressed
about a model in which no deadline exists. -/

/-- Total latency of the calls in a trace under a latency assignment (ms). -/
def elapsedMs (latency : ExtCall → Nat) (trace : List ExtCall) : Nat :=
  (trace.map latency).sum

/-! ## Projections and statement helpers -/

/-- The `places` array of a run result (empty when no result). -/
def respPlaces (r : Option (Resp × World)) : List JPlace :=
  (r.map (fun rw => rw.1.places)).getD []

/-- The HTTP status of a run result. -/
def respStatus (r : Option (Resp × World)) : Option Nat :=
  r.map (fun rw => rw.1.status)

/-- The call trace of a run result. -/
def runTrace (r : Option (Resp × World)) : List ExtCall :=
  (r.map (fun rw => rw.2.trace)).getD []

/-- The `(name, address)` pair of a place, the dedup identity of the spec. -/
def placePair (p : JPlace) : Option String × Option String :=
  (p.name, p.address)

/-- Tabulated row `[g start, g (start+1), ..., g (start+len-1)]`; proof helper
for the Levenshtein DP. -/
def rowTab (g : Nat → Nat) : Nat → Nat → List Nat
  | _, 0 => []
  | start, len + 1 => g start :: rowTab g (start + 1) len

/-- Wrapping content in a ```json code fence, as claim C7 describes. -/
def fenceJsonWrap (content : String) : String :=
  "```json\n" ++ content ++ "\n```"

/-- Wrapping content in a plain ``` code fence. -/
def fencePlainWrap (content : String) : String :=
  "```\n" ++ content ++ "\n```"

/-- `content` is free of backtick characters. -/
def noTick (s : String) : Bool :=
  s.data.all (fun c => c ≠ '`')

/-- An oracle on which every provider call fails with a non-2xx status. -/
def oracleAllFail : Oracle where
  qloo := fun _ => QlooHttp.badStatus
  openaiPlaces := fun _ => OpenAIHttp.badStatus
  google := fun _ => GoogleHttp.badStatus
  explain := fun _ => OpenAIHttp.badStatus

/-! ## Concrete scenarios used by counterexamples and witnesses -/

/-- C1 counterexample scenario: only the Qloo key is configured. -/
def c1Env : Env := { qlooApiKey := some "k" }

/-- C1: the first Qloo strategy already returns one relevant entity. -/
def c1Entity : QlooEntity :=
  { entity_id := some "E1", name := some "N",
    types := ["urn:entity:place"], address := some "A St" }

/-- C1 oracle. -/
def c1Oracle : Oracle := { oracleAllFail with qloo := fun _ => QlooHttp.ok [c1Entity] }

/-- C1 request: a valid taste request. -/
def c1Req : Req :=
  { httpMethod := "POST",
    body := some { type := some "taste", query := some "sushi",
                   city := some "Tokyo", limit := some 3 } }

/-- C1 latency assignment: every external call takes 7 seconds. -/
def c1Latency : ExtCall → Nat := fun _ => 7000

/-- Witness request for the status-classification theorem: a GET. -/
def c1wReq : Req := { httpMethod := "GET", body := none }

/-- C2 counterexample scenario: OpenAI key only (no Google Maps key). -/
def c2Env : Env := { openaiApiKey := some "k" }

/-- C2: generative content that is a valid JSON array with a duplicated
`(name, address)` entry. -/
def c2DupContent : String :=
  "[\x7b\"name\":\"A\",\"address\":\"X\"\x7d,\x7b\"name\":\"A\",\"address\":\"X\"\x7d]"

/-- C2 oracle. -/
def c2Oracle : Oracle :=
  { oracleAllFail with
    openaiPlaces := fun _ => OpenAIHttp.ok (some c2DupContent),
    explain := fun _ => OpenAIHttp.ok none }

/-- C2 request. -/
def c2Req : Req :=
  { httpMethod := "POST",
    body := some { type := some "taste", query := some "food", city := some "Paris" } }

/-- C2 witness scenario: the Google Maps key is configured. -/
def c2wEnv : Env := { googleMapsApiKey := some "g" }

/-- C2 witness request. -/
def c2wReq : Req :=
  { httpMethod := "POST", body := some { city := some "Rome" } }

/-- C3 counterexample oracle: OpenAI returns a valid one-element array. -/
def c3Oracle : Oracle :=
  { oracleAllFail with
    openaiPlaces := fun _ => OpenAIHttp.ok (some "[\x7b\"name\":\"A\",\"address\":\"B Tokyo\"\x7d]") }

/-- C3 counterexample request: non-empty query and city, but `limit: 0`. -/
def c3Req : Req :=
  { httpMethod := "POST",
    body := some { type := some "taste", query := some "sushi",
                   city := some "Tokyo", limit := some 0 } }

/-- C3 witness request: same request with the limit left to its default. -/
def c3wReq : Req :=
  { httpMethod := "POST",
    body := some { type := some "taste", query := some "sushi", city := some "Tokyo" } }

/-- C3 counterexample environment: OpenAI key only. -/
def c3Env : Env := { openaiApiKey := some "k" }

/-- C7 counterexample content: a valid JSON array whose single string element
contains code-fence markers. -/
def c7Content : String := "[\"``` [1] ```\"]"

/-- C8 witness content: malformed JSON (unterminated object) with one
name/address pair. -/
def c8Content : String := "\x7b\"name\": \"Cafe A\", \"address\": \"1 Rd\""

/-- C9 scenario: Qloo and OpenAI keys configured, no Google Maps key. -/
def c9Env : Env := { qlooApiKey := some "k", openaiApiKey := some "k" }

/-- C9: the Qloo entity arrives with a provider description, which becomes the
place's explanation before response processing begins. -/
def c9Entity : QlooEntity :=
  { entity_id := some "E1", name := some "N", types := ["urn:entity:place"],
    address := some "A St", description := some "Existing expl" }

/-- C9 oracle: the explanation call succeeds with fresh text. -/
def c9Oracle : Oracle :=
  { oracleAllFail with
    qloo := fun _ => QlooHttp.ok [c9Entity],
    explain := fun _ => OpenAIHttp.ok (some "Generated") }

/-- C9 request. -/
def c9Req : Req :=
  { httpMethod := "POST",
    body := some { type := some "taste", query := some "sushi",
                   city := some "Tokyo", limit := some 3 } }

/-- C9 witness place: carries a non-empty upstream explanation. -/
def c9wPlace : JPlace :=
  { name := some "N", address := some "A", explanation := some "Existing expl" }

/-! # Theorems -/

/-! ## Shared list lemmas -/

theorem isPrefixOf_self_eq_true (l : List Char) : l.isPrefixOf l = true := by
  induction l with
  | nil => rfl
  | cons c cs ih => simp [List.isPrefixOf, ih]

theorem containsSub_append_self (pre s : List Char) :
    containsSub s (pre ++ s) = true := by
  induction pre with
  | nil =>
    cases s with
    | nil => rfl
    | cons c cs => simp [containsSub, isPrefixOf_self_eq_true]
  | cons p ps ih => simp [containsSub, ih]

/-! ## C10 — shape of the static fallback -/

/-- C10: for every city and query, `getHardcodedPlaces` returns exactly three
places with the pairwise-distinct ids `fallback-1`, `fallback-2`,
`fallback-3`, each with a non-empty name, an address containing the city as a
substring, and `originalQuery` equal to the query argument. -/
theorem c10_hardcoded_places_shape (city query : String) :
    (getHardcodedPlaces city query).length = 3 ∧
      (getHardcodedPlaces city query).map (fun p => p.id) =
        [some "fallback-1", some "fallback-2", some "fallback-3"] ∧
      (("fallback-1" : String) ≠ "fallback-2" ∧ ("fallback-1" : String) ≠ "fallback-3" ∧
        ("fallback-2" : String) ≠ "fallback-3") ∧
      ∀ p ∈ getHardcodedPlaces city query,
        p.name.getD "" ≠ "" ∧ jsIncludes (p.address.getD "") city = true ∧
          p.originalQuery = some query := by
  refine ⟨rfl, rfl, ⟨by decide, by decide, by decide⟩, ?_⟩
  intro p hp
  have haddr : ∀ pre : String, jsIncludes (pre ++ city) city = true := by
    intro pre
    show containsSub city.data (pre ++ city).data = true
    rw [String.data_append]
    exact containsSub_append_self pre.data city.data
  simp only [getHardcodedPlaces, List.mem_cons, List.not_mem_nil, or_false] at hp
  rcases hp with h | h | h <;> subst h
  · exact ⟨show ("Blue Bottle Coffee" : String) ≠ "" by decide, haddr "Central ", rfl⟩
  · exact ⟨show ("Local Artisan Cafe" : String) ≠ "" by decide, haddr "Downtown ", rfl⟩
  · exact ⟨show ("Specialty Coffee Roasters" : String) ≠ "" by decide,
      haddr "Arts District, ", rfl⟩

/-! ## C4 / C5 — the two relevance examples -/

/-- C4: the relevance decision for candidate "Owl Cafe" with provider types
`["cafe"]` against the query "vietnamese food" is `true` — no query token
overlaps the candidate name, but the accept-by-default bias (together with the
matching `food`-category type tag and the business-keyword check) accepts it.
The first argument (the raw place name) does not influence the decision. -/
theorem c4_owl_cafe_relevant (originalPlaceName : String) :
    checkBusinessRelevance originalPlaceName "Owl Cafe" ["cafe"] "vietnamese food" = true :=
  rfl

/-- C5: the relevance decision for candidate "City General Hospital" with
provider types `["hospital"]` against the query "cozy cafe" is `false`; the
rejection comes from the semantic category-mismatch rule (the query is
classified as `food` and neither the type tags nor the name match it). -/
theorem c5_hospital_rejected (originalPlaceName : String) :
    checkBusinessRelevance originalPlaceName "City General Hospital" ["hospital"] "cozy cafe"
        = false ∧
      (validateSemanticRelevance "City General Hospital" ["hospital"] "cozy cafe").isRelevant
        = false :=
  ⟨rfl, rfl⟩

/-! ## C8 — the manual extractor recovers at least one place -/

theorem matchFieldAt_cap_ne_nil {f l : List Char} {cap rest : List Char}
    (h : matchFieldAt f l = some (cap, rest)) : cap ≠ [] := by
  unfold matchFieldAt at h
  dsimp only at h
  split at h
  · split at h
    · split at h
      · split at h
        · exact absurd h (by simp)
        · rename_i hne
          intro hc
          rw [Option.some.injEq, Prod.mk.injEq] at h
          rcases h with ⟨h1, h2⟩
          rw [hc] at h1
          rw [h1] at hne
          simp at hne
      · exact absurd h (by simp)
    · exact absurd h (by simp)
  · exact absurd h (by simp)

theorem scanFieldAux_mem_ne_nil (f : List Char) :
    ∀ (fuel : Nat) (l cap : List Char), cap ∈ scanFieldAux f fuel l → cap ≠ [] := by
  intro fuel
  induction fuel with
  | zero => intro l cap h; simp [scanFieldAux] at h
  | succ n ih =>
    intro l cap h
    cases l with
    | nil => simp [scanFieldAux] at h
    | cons c cs =>
      rw [scanFieldAux] at h
      rcases hm : matchFieldAt f (c :: cs) with _ | ⟨cap', rest⟩
      · rw [hm] at h
        exact ih cs cap h
      · rw [hm] at h
        rcases List.mem_cons.mp h with h | h
        · subst h
          exact matchFieldAt_cap_ne_nil hm
        · exact ih rest cap h

theorem scanField_mem_ne_empty {field content s : String}
    (h : s ∈ scanField field content) : s ≠ "" := by
  unfold scanField at h
  rcases List.mem_map.mp h with ⟨cap, hmem, hs⟩
  subst hs
  intro hcontr
  exact scanFieldAux_mem_ne_nil field.data _ content.data cap hmem
    (congrArg String.data hcontr)

theorem extractStep_length_le (nm am rm em : List String) (q : String)
    (acc : List JPlace) (i : Nat) :
    acc.length ≤ (extractStep nm am rm em q acc i).length := by
  unfold extractStep
  rcases nm.get? i with _ | n <;> rcases am.get? i with _ | a <;> simp
  split <;> simp

theorem extractFold_length_le (nm am rm em : List String) (q : String) :
    ∀ (l : List Nat) (acc : List JPlace),
      acc.length ≤ (l.foldl (extractStep nm am rm em q) acc).length := by
  intro l
  induction l with
  | nil => intro acc; simp
  | cons i rest ih =>
    intro acc
    exact Nat.le_trans (extractStep_length_le nm am rm em q acc i)
      (ih (extractStep nm am rm em q acc i))

/-- C8: a generative-text response that fails strict JSON parsing (after
fence stripping) but carries at least one `"name": "..."` and one
`"address": "..."` field match makes the manual extractor recover at least
one place, for any positive requested limit. -/
theorem c8_manual_extractor_recovers (content query city : String) (limit : Int)
    (_hparse : parseJson (cleanContent content) = none)
    (hname : scanField "name" content ≠ [])
    (haddr : scanField "address" content ≠ [])
    (hlimit : 1 ≤ limit) :
    1 ≤ (extractPlacesManually content query city limit).length := by
  unfold extractPlacesManually
  rcases hn : scanField "name" content with _ | ⟨n0, ntl⟩
  · exact absurd hn hname
  rcases ha : scanField "address" content with _ | ⟨a0, atl⟩
  · exact absurd ha haddr
  simp only [List.isEmpty_cons, Bool.not_false, Bool.and_self, if_true]
  have hiters : ∃ k, (min ((n0 :: ntl).length : Int) limit).toNat = k + 1 := by
    refine ⟨(min ((n0 :: ntl).length : Int) limit).toNat - 1, ?_⟩
    have : (1 : Int) ≤ min ((n0 :: ntl).length : Int) limit := by
      simp only [List.length_cons]
      omega
    omega
  rcases hiters with ⟨k, hk⟩
  rw [hk, List.range_succ_eq_map, List.foldl_cons]
  have hstep : extractStep (n0 :: ntl) (a0 :: atl) (scanRatingField content)
      (scanField "explanation" content) query [] 0 =
      [{ id := some ("manual-" ++ toString 0),
         name := some n0,
         address := some a0,
         rating := some (match (scanRatingField content).get? 0 with
           | some r => (parseFloatQ r).getD 0
           | none => (9 : Rat) / 2),
         explanation := (scanField "explanation" content).get? 0,
         image := some (getUnsplashImage query 0),
         originalQuery := some query }] := by
    unfold extractStep
    simp only [List.get?_cons_zero]
    rw [if_pos]
    · rfl
    · exact ⟨scanField_mem_ne_empty (hn ▸ List.mem_cons_self n0 ntl),
        scanField_mem_ne_empty (ha ▸ List.mem_cons_self a0 atl)⟩
  rw [hstep]
  have := extractFold_length_le (n0 :: ntl) (a0 :: atl) (scanRatingField content)
    (scanField "explanation" content) query ((List.range k).map Nat.succ)
    [{ id := some ("manual-" ++ toString 0),
       name := some n0,
       address := some a0,
       rating := some (match (scanRatingField content).get? 0 with
         | some r => (parseFloatQ r).getD 0
         | none => (9 : Rat) / 2),
       explanation := (scanField "explanation" content).get? 0,
       image := some (getUnsplashImage query 0),
       originalQuery := some query }]
  simpa using this

/-- C8 witness: the concrete malformed content `{"name": "Cafe A",
"address": "1 Rd"` (unterminated object) with limit 1. -/
theorem c8_manual_extractor_recovers_witness :
    parseJson (cleanContent c8Content) = none ∧
      scanField "name" c8Content ≠ [] ∧
      scanField "address" c8Content ≠ [] ∧
      (1 : Int) ≤ 1 ∧
      1 ≤ (extractPlacesManually c8Content "q" "Tokyo" 1).length :=
  ⟨rfl, by decide, by decide, by decide,
    c8_manual_extractor_recovers c8Content "q" "Tokyo" 1 rfl (by decide) (by decide) (by decide)⟩

/-! ## C7 — code-fence round-trip -/

theorem isPrefixOf_append_self (l t : List Char) : l.isPrefixOf (l ++ t) = true := by
  induction l with
  | nil => simp [List.isPrefixOf]
  | cons c cs ih => simp [List.isPrefixOf, ih]

theorem containsSub_prefix (x : Char) (xs t : List Char) :
    containsSub (x :: xs) ((x :: xs) ++ t) = true := by
  show containsSub (x :: xs) (x :: (xs ++ t)) = true
  have hp := isPrefixOf_append_self (x :: xs) t
  rw [containsSub]
  simp only [List.cons_append] at hp
  rw [hp, Bool.true_or]

theorem containsSub_skip (d : Char) (ds : List Char) :
    ∀ (s t : List Char), (∀ c ∈ s, c ≠ d) →
      containsSub (d :: ds) (s ++ t) = containsSub (d :: ds) t := by
  intro s
  induction s with
  | nil => intro t _; rfl
  | cons c cs ih =>
    intro t hfree
    have hc : c ≠ d := hfree c (by simp)
    have hpre : (d :: ds).isPrefixOf (c :: (cs ++ t)) = false := by
      simp [List.isPrefixOf]
      intro h
      exact absurd h.symm hc
    show containsSub (d :: ds) (c :: (cs ++ t)) = containsSub (d :: ds) t
    rw [containsSub, hpre, Bool.false_or]
    exact ih t (fun c hc => hfree c (by simp [hc]))

theorem jsSplitAuxF_skip (d : Char) (ds : List Char) :
    ∀ (s : List Char), (∀ c ∈ s, c ≠ d) → ∀ (fuel : Nat) (rest acc : List Char),
      jsSplitAuxF d ds (s.length + fuel) (s ++ rest) acc =
        jsSplitAuxF d ds fuel rest (s.reverse ++ acc) := by
  intro s
  induction s with
  | nil => intro _ fuel rest acc; simp
  | cons c cs ih =>
    intro hfree fuel rest acc
    have hc : c ≠ d := hfree c (by simp)
    have hpre : (d :: ds).isPrefixOf (c :: (cs ++ rest)) = false := by
      simp [List.isPrefixOf]
      intro h
      exact absurd h.symm hc
    have harith : (c :: cs).length + fuel = (cs.length + fuel) + 1 := by
      simp [List.length_cons]
      omega
    rw [harith]
    show jsSplitAuxF d ds ((cs.length + fuel) + 1) (c :: (cs ++ rest)) acc = _
    rw [jsSplitAuxF, hpre]
    simp only [Bool.false_eq_true, if_false]
    rw [ih (fun x hx => hfree x (by simp [hx])) fuel rest (c :: acc)]
    simp

theorem jsSplitAuxF_match (d : Char) (ds : List Char) (fuel : Nat) (rest acc : List Char) :
    jsSplitAuxF d ds (fuel + 1) ((d :: ds) ++ rest) acc =
      acc.reverse :: jsSplitAuxF d ds fuel rest [] := by
  have hp : (d :: ds).isPrefixOf (d :: (ds ++ rest)) = true := by
    simp [isPrefixOf_append_self (d :: ds) rest]
  show jsSplitAuxF d ds (fuel + 1) (d :: (ds ++ rest)) acc = _
  rw [jsSplitAuxF, if_pos hp]
  have hdrop : List.drop (d :: ds).length (d :: (ds ++ rest)) = rest := by
    simp [List.length_cons, List.drop_succ_cons, List.drop_left]
  rw [hdrop]

theorem jsSplitAuxF_no_match (d : Char) (ds : List Char) (s : List Char)
    (hfree : ∀ c ∈ s, c ≠ d) (k : Nat) (acc : List Char) :
    jsSplitAuxF d ds (s.length + (k + 1)) s acc = [acc.reverse ++ s] := by
  have := jsSplitAuxF_skip d ds s hfree (k + 1) [] acc
  rw [List.append_nil] at this
  rw [this]
  simp [jsSplitAuxF]

theorem jsTrimL_ws_cons (a : Char) (z : List Char) (ha : jsIsWs a = true) :
    jsTrimL (a :: z) = jsTrimL z := by
  simp [jsTrimL, List.dropWhile_cons, ha]

theorem jsTrimL_ws_concat (a : Char) (z : List Char) (ha : jsIsWs a = true) :
    jsTrimL (z ++ [a]) = jsTrimL z := by
  unfold jsTrimL
  rw [List.dropWhile_append]
  by_cases h : (z.dropWhile jsIsWs).isEmpty
  · rw [if_pos h]
    have hz : z.dropWhile jsIsWs = [] := by simpa [List.isEmpty_iff] using h
    rw [hz]
    simp [List.dropWhile_cons, ha]
  · rw [if_neg h]
    rw [List.reverse_append]
    simp [List.dropWhile_cons, ha]

/-- Scanning the closing triple backtick for the 7-character ```json
separator finds no match and consumes the rest of the input. -/
theorem scan_sep3_for_sepJson (k : Nat) (acc : List Char) :
    jsSplitAuxF '`' ['`', '`', 'j', 's', 'o', 'n'] (k + 4) ['`', '`', '`'] acc =
      [acc.reverse ++ ['`', '`', '`']] := by
  have c1 : (('`' : Char) :: ['`', '`', 'j', 's', 'o', 'n']).isPrefixOf ['`', '`', '`'] = false := by
    decide
  have c2 : (('`' : Char) :: ['`', '`', 'j', 's', 'o', 'n']).isPrefixOf ['`', '`'] = false := by
    decide
  have c3 : (('`' : Char) :: ['`', '`', 'j', 's', 'o', 'n']).isPrefixOf ['`'] = false := by
    decide
  rw [show k + 4 = k + 3 + 1 from rfl, jsSplitAuxF, c1]
  simp only [Bool.false_eq_true, if_false]
  rw [show k + 3 = k + 2 + 1 from rfl, jsSplitAuxF, c2]
  simp only [Bool.false_eq_true, if_false]
  rw [show k + 2 = k + 1 + 1 from rfl, jsSplitAuxF, c3]
  simp only [Bool.false_eq_true, if_false]
  rw [jsSplitAuxF]
  simp

/-- The 7-character ```json separator never matches inside
`` ``` `` + newline + backtick-free content + newline + `` ``` ``. -/
theorem containsSub_json_plain (c : List Char) (hfree : ∀ x ∈ c, x ≠ '`') :
    containsSub ('`' :: ['`', '`', 'j', 's', 'o', 'n'])
      ('`' :: '`' :: '`' :: '\n' :: (c ++ '\n' :: ['`', '`', '`'])) = false := by
  have p0 : ∀ z : List Char,
      (('`' : Char) :: ['`', '`', 'j', 's', 'o', 'n']).isPrefixOf ('`' :: '`' :: '`' :: '\n' :: z)
        = false := by
    intro z; simp [List.isPrefixOf]
  have p1 : ∀ z : List Char,
      (('`' : Char) :: ['`', '`', 'j', 's', 'o', 'n']).isPrefixOf ('`' :: '`' :: '\n' :: z)
        = false := by
    intro z; simp [List.isPrefixOf]
  have p2 : ∀ z : List Char,
      (('`' : Char) :: ['`', '`', 'j', 's', 'o', 'n']).isPrefixOf ('`' :: '\n' :: z) = false := by
    intro z; simp [List.isPrefixOf]
  have p3 : ∀ z : List Char,
      (('`' : Char) :: ['`', '`', 'j', 's', 'o', 'n']).isPrefixOf ('\n' :: z) = false := by
    intro z; simp [List.isPrefixOf]
  rw [containsSub, p0, Bool.false_or]
  rw [containsSub, p1, Bool.false_or]
  rw [containsSub, p2, Bool.false_or]
  rw [containsSub, p3, Bool.false_or]
  rw [containsSub_skip '`' ['`', '`', 'j', 's', 'o', 'n'] c ('\n' :: ['`', '`', '`']) hfree]
  decide

/-- `noTick` unpacked. -/
theorem noTick_forall {content : String} (htick : noTick content = true) :
    ∀ x ∈ content.data, x ≠ '`' := by
  intro x hx
  have := List.all_eq_true.mp htick x hx
  simpa using this

/-- Characters of the stripped middle segment of a fence wrap. -/
theorem midFree {content : String} (htick : noTick content = true) :
    ∀ x ∈ '\n' :: content.data ++ ['\n'], x ≠ '`' := by
  intro x hx
  rcases List.mem_cons.mp hx with h | h
  · subst h; decide
  · rcases List.mem_append.mp h with h | h
    · exact noTick_forall htick x h
    · rcases List.mem_singleton.mp h with rfl; decide

/-- Without a backtick in the content, the stripping step is the identity. -/
theorem cleanContent_id_of_noTick (content : String) (htick : noTick content = true) :
    cleanContent content = content := by
  have hfree := noTick_forall htick
  have h1 : jsIncludes content "```json" = false := by
    show containsSub "```json".data content.data = false
    have := containsSub_skip '`' ['`', '`', 'j', 's', 'o', 'n'] content.data [] hfree
    rw [List.append_nil] at this
    rw [show ("```json".data : List Char) = '`' :: ['`', '`', 'j', 's', 'o', 'n'] from rfl, this]
    rfl
  have h2 : jsIncludes content "```" = false := by
    show containsSub "```".data content.data = false
    have := containsSub_skip '`' ['`', '`'] content.data [] hfree
    rw [List.append_nil] at this
    rw [show ("```".data : List Char) = '`' :: ['`', '`'] from rfl, this]
    rfl
  unfold cleanContent
  rw [h1, h2]
  simp

/-- Trimming the newline-padded middle segment recovers trimmed content. -/
theorem jsTrim_mid (content : String) (htrim : jsTrim content = content) :
    jsTrim ⟨'\n' :: (content.data ++ ['\n'])⟩ = content := by
  have hdata : jsTrimL content.data = content.data := congrArg String.data htrim
  show (⟨jsTrimL ('\n' :: (content.data ++ ['\n']))⟩ : String) = content
  rw [jsTrimL_ws_cons '\n' _ (by decide), jsTrimL_ws_concat '\n' content.data (by decide), hdata]

/-- Stripping a ```json fence from backtick-free trimmed content recovers the
content. -/
theorem cleanContent_fenceJson (content : String) (htick : noTick content = true)
    (htrim : jsTrim content = content) :
    cleanContent (fenceJsonWrap content) = content := by
  have hdata : (fenceJsonWrap content).data =
      ('`' :: ['`', '`', 'j', 's', 'o', 'n']) ++
        ('\n' :: (content.data ++ '\n' :: ['`', '`', '`'])) := by
    show (("```json\n" ++ content) ++ "\n```").data = _
    rw [String.data_append, String.data_append]
    rfl
  have hincl : jsIncludes (fenceJsonWrap content) "```json" = true := by
    show containsSub "```json".data (fenceJsonWrap content).data = true
    rw [hdata]
    exact containsSub_prefix '`' ['`', '`', 'j', 's', 'o', 'n'] _
  have hresplit : ('\n' :: (content.data ++ '\n' :: ['`', '`', '`'])) =
      ('\n' :: content.data ++ ['\n']) ++ ['`', '`', '`'] := by
    simp
  have hsplit1 : jsSplitL "```json".data (fenceJsonWrap content).data =
      [[], '\n' :: (content.data ++ '\n' :: ['`', '`', '`'])] := by
    rw [hdata]
    show jsSplitAuxF '`' ['`', '`', 'j', 's', 'o', 'n']
        ((('`' :: ['`', '`', 'j', 's', 'o', 'n']) ++
          ('\n' :: (content.data ++ '\n' :: ['`', '`', '`']))).length + 1)
        (('`' :: ['`', '`', 'j', 's', 'o', 'n']) ++
          ('\n' :: (content.data ++ '\n' :: ['`', '`', '`']))) [] = _
    have hlen : ((('`' :: ['`', '`', 'j', 's', 'o', 'n']) ++
        ('\n' :: (content.data ++ '\n' :: ['`', '`', '`']))).length + 1) =
        (('\n' :: (content.data ++ '\n' :: ['`', '`', '`'])).length + 7) + 1 := by
      simp [List.length_append, List.length_cons]
    rw [hlen, jsSplitAuxF_match]
    rw [hresplit]
    have hlen2 : ((('\n' :: content.data ++ ['\n']) ++ ['`', '`', '`']).length + 7) =
        ('\n' :: content.data ++ ['\n']).length + 10 := by
      simp [List.length_append, List.length_cons]
    rw [hlen2,
      jsSplitAuxF_skip '`' ['`', '`', 'j', 's', 'o', 'n']
        ('\n' :: content.data ++ ['\n']) (midFree htick) 10 ['`', '`', '`'] [],
      List.append_nil, show (10 : Nat) = 6 + 4 from rfl, scan_sep3_for_sepJson]
    simp
  have hpart1 : (jsSplit (fenceJsonWrap content) "```json").getD 1 "" =
      ⟨'\n' :: (content.data ++ '\n' :: ['`', '`', '`'])⟩ := by
    unfold jsSplit
    rw [hsplit1]
    rfl
  have hsplit2 : jsSplitL "```".data ('\n' :: (content.data ++ '\n' :: ['`', '`', '`'])) =
      ['\n' :: content.data ++ ['\n'], []] := by
    show jsSplitAuxF '`' ['`', '`']
        (('\n' :: (content.data ++ '\n' :: ['`', '`', '`'])).length + 1)
        ('\n' :: (content.data ++ '\n' :: ['`', '`', '`'])) [] = _
    rw [hresplit]
    have hlen3 : ((('\n' :: content.data ++ ['\n']) ++ ['`', '`', '`']).length + 1) =
        ('\n' :: content.data ++ ['\n']).length + 4 := by
      simp [List.length_append, List.length_cons]
    rw [hlen3,
      jsSplitAuxF_skip '`' ['`', '`'] ('\n' :: content.data ++ ['\n'])
        (midFree htick) 4 ['`', '`', '`'] [],
      List.append_nil,
      show (['`', '`', '`'] : List Char) = ('`' :: ['`', '`']) ++ ([] : List Char) from rfl,
      show (4 : Nat) = 3 + 1 from rfl, jsSplitAuxF_match,
      show (3 : Nat) = 2 + 1 from rfl, jsSplitAuxF]
    simp
  have hpart2 : (jsSplit (⟨'\n' :: (content.data ++ '\n' :: ['`', '`', '`'])⟩ : String)
      "```").getD 0 "" = ⟨'\n' :: content.data ++ ['\n']⟩ := by
    unfold jsSplit
    rw [show ((⟨'\n' :: (content.data ++ '\n' :: ['`', '`', '`'])⟩ : String)).data =
        '\n' :: (content.data ++ '\n' :: ['`', '`', '`']) from rfl, hsplit2]
    rfl
  unfold cleanContent
  rw [hincl]
  simp only [if_true]
  rw [hpart1, hpart2]
  exact jsTrim_mid content htrim

/-- Stripping a plain ``` fence from backtick-free trimmed content recovers
the content. -/
theorem cleanContent_fencePlain (content : String) (htick : noTick content = true)
    (htrim : jsTrim content = content) :
    cleanContent (fencePlainWrap content) = content := by
  have hdata : (fencePlainWrap content).data =
      ('`' :: ['`', '`']) ++ ('\n' :: (content.data ++ '\n' :: ['`', '`', '`'])) := by
    show (("```\n" ++ content) ++ "\n```").data = _
    rw [String.data_append, String.data_append]
    rfl
  have hnojson : jsIncludes (fencePlainWrap content) "```json" = false := by
    show containsSub "```json".data (fencePlainWrap content).data = false
    rw [hdata]
    exact containsSub_json_plain content.data (noTick_forall htick)
  have hincl : jsIncludes (fencePlainWrap content) "```" = true := by
    show containsSub "```".data (fencePlainWrap content).data = true
    rw [hdata]
    exact containsSub_prefix '`' ['`', '`'] _
  have hresplit : ('\n' :: (content.data ++ '\n' :: ['`', '`', '`'])) =
      ('\n' :: content.data ++ ['\n']) ++ ['`', '`', '`'] := by
    simp
  have hsplit1 : jsSplitL "```".data (fencePlainWrap content).data =
      [[], '\n' :: content.data ++ ['\n'], []] := by
    rw [hdata]
    show jsSplitAuxF '`' ['`', '`']
        ((('`' :: ['`', '`']) ++
          ('\n' :: (content.data ++ '\n' :: ['`', '`', '`']))).length + 1)
        (('`' :: ['`', '`']) ++ ('\n' :: (content.data ++ '\n' :: ['`', '`', '`']))) [] = _
    have hlen : ((('`' :: ['`', '`']) ++
        ('\n' :: (content.data ++ '\n' :: ['`', '`', '`']))).length + 1) =
        (('\n' :: (content.data ++ '\n' :: ['`', '`', '`'])).length + 3) + 1 := by
      simp [List.length_append, List.length_cons]
    rw [hlen, jsSplitAuxF_match, hresplit]
    have hlen2 : ((('\n' :: content.data ++ ['\n']) ++ ['`', '`', '`']).length + 3) =
        ('\n' :: content.data ++ ['\n']).length + 6 := by
      simp [List.length_append, List.length_cons]
    rw [hlen2,
      jsSplitAuxF_skip '`' ['`', '`'] ('\n' :: content.data ++ ['\n'])
        (midFree htick) 6 ['`', '`', '`'] [],
      List.append_nil,
      show (['`', '`', '`'] : List Char) = ('`' :: ['`', '`']) ++ ([] : List Char) from rfl,
      show (6 : Nat) = 5 + 1 from rfl, jsSplitAuxF_match,
      show (5 : Nat) = 4 + 1 from rfl, jsSplitAuxF]
    simp
  have hpart1 : (jsSplit (fencePlainWrap content) "```").getD 1 "" =
      ⟨'\n' :: content.data ++ ['\n']⟩ := by
    unfold jsSplit
    rw [hsplit1]
    rfl
  have hsplit2 : jsSplitL "```".data ('\n' :: content.data ++ ['\n']) =
      ['\n' :: content.data ++ ['\n']] := by
    show jsSplitAuxF '`' ['`', '`'] (('\n' :: content.data ++ ['\n']).length + 1)
        ('\n' :: content.data ++ ['\n']) [] = _
    have := jsSplitAuxF_no_match '`' ['`', '`'] ('\n' :: content.data ++ ['\n'])
      (midFree htick) 0 []
    simpa using this
  have hpart2 : (jsSplit (⟨'\n' :: content.data ++ ['\n']⟩ : String) "```").getD 0 "" =
      ⟨'\n' :: content.data ++ ['\n']⟩ := by
    unfold jsSplit
    rw [show ((⟨'\n' :: content.data ++ ['\n']⟩ : String)).data =
        '\n' :: content.data ++ ['\n'] from rfl, hsplit2]
    rfl
  unfold cleanContent
  rw [hnojson]
  simp only [Bool.false_eq_true, if_false]
  rw [hincl]
  simp only [if_true]
  rw [hpart1, hpart2]
  exact jsTrim_mid content htrim

/-- C7 counterexample: the content `["``` [1] ```"]` is a valid JSON array,
yet the Synthesize stage parses the raw content to the array `[1]` (the
stripping logic mangles it) and parses the ```json-wrapped content to a parse
failure — wrapping does not yield the same parsed list of places. -/
theorem c7_fence_counterexample :
    parseJson c7Content = some (Json.arr [Json.str "``` [1] ```"]) ∧
      parseJson (cleanContent c7Content) = some (Json.arr [Json.num 1]) ∧
      parseJson (cleanContent (fenceJsonWrap c7Content)) = none ∧
      parseJson (cleanContent (fenceJsonWrap c7Content)) ≠
        parseJson (cleanContent c7Content) :=
  ⟨rfl, rfl, rfl, by
    intro h
    rw [show parseJson (cleanContent (fenceJsonWrap c7Content)) = none from rfl,
      show parseJson (cleanContent c7Content) = some (Json.arr [Json.num 1]) from rfl] at h
    exact Option.noConfusion h⟩

/-- C7 (amended): for generative content free of backtick characters and equal
to its own trim, wrapping in a ```json fence or a plain ``` fence strips back
to exactly the original content, so the Synthesize stage parses the same list
of places either way. -/
theorem c7_fence_roundtrip (content : String)
    (htick : noTick content = true) (htrim : jsTrim content = content) :
    cleanContent (fenceJsonWrap content) = content ∧
      cleanContent (fencePlainWrap content) = content ∧
      cleanContent content = content ∧
      parseJson (cleanContent (fenceJsonWrap content)) = parseJson (cleanContent content) ∧
      parseJson (cleanContent (fencePlainWrap content)) = parseJson (cleanContent content) := by
  have h1 := cleanContent_fenceJson content htick htrim
  have h2 := cleanContent_fencePlain content htick htrim
  have h3 := cleanContent_id_of_noTick content htick
  exact ⟨h1, h2, h3, by rw [h1, h3], by rw [h2, h3]⟩

/-- C7 witness: the concrete content `[1]`. -/
theorem c7_fence_roundtrip_witness :
    noTick "[1]" = true ∧ jsTrim "[1]" = "[1]" ∧
      (cleanContent (fenceJsonWrap "[1]") = "[1]" ∧
        cleanContent (fencePlainWrap "[1]") = "[1]" ∧
        cleanContent "[1]" = "[1]" ∧
        parseJson (cleanContent (fenceJsonWrap "[1]")) = parseJson (cleanContent "[1]") ∧
        parseJson (cleanContent (fencePlainWrap "[1]")) = parseJson (cleanContent "[1]")) :=
  ⟨by decide, rfl, c7_fence_roundtrip "[1]" (by decide) rfl⟩

/-! ## C6 — Levenshtein symmetry and reflexivity

The executable `levenshteinDistance` (the row-fold embedding of the source
loops) is first proved equal to the prefix-indexed recurrence `levAux`, and
symmetry and the zero diagonal are proved for the recurrence. -/

theorem levAux_left_zero (s1 s2 : List Char) (j : Nat) : levAux s1 s2 0 j = j := by
  simp [levAux]

theorem levAux_right_zero (s1 s2 : List Char) (i : Nat) : levAux s1 s2 i 0 = i := by
  cases i with
  | zero => simp [levAux]
  | succ n => simp [levAux]

theorem levAux_symm_aux (a b : List Char) :
    ∀ (n i j : Nat), i + j ≤ n → levAux a b i j = levAux b a j i := by
  intro n
  induction n with
  | zero =>
    intro i j h
    have hi : i = 0 := by omega
    have hj : j = 0 := by omega
    subst hi; subst hj
    rw [levAux_left_zero, levAux_left_zero]
  | succ n ih =>
    intro i j h
    rcases i with _ | i
    · rw [levAux_left_zero, levAux_right_zero]
    rcases j with _ | j
    · rw [levAux_left_zero, levAux_right_zero]
    have h1 : i + j ≤ n := by omega
    have h2 : (i + 1) + j ≤ n := by omega
    have h3 : i + (j + 1) ≤ n := by omega
    by_cases hc : b.getD i ' ' = a.getD j ' '
    · rw [levAux, if_pos hc, levAux, if_pos hc.symm]
      exact ih i j h1
    · rw [levAux, if_neg hc, levAux, if_neg (fun hx => hc hx.symm)]
      rw [ih i j h1, ih (i + 1) j h2, ih i (j + 1) h3]
      omega

theorem levAux_symm (a b : List Char) (i j : Nat) :
    levAux a b i j = levAux b a j i :=
  levAux_symm_aux a b (i + j) i j le_rfl

theorem levAux_diag (a : List Char) : ∀ i, levAux a a i i = 0 := by
  intro i
  induction i with
  | zero => rw [levAux_left_zero]
  | succ n ih => rw [levAux, if_pos rfl, ih]

theorem rowTab_congr (g h : Nat → Nat) (H : ∀ k, g k = h k) :
    ∀ (len start : Nat), rowTab g start len = rowTab h start len := by
  intro len
  induction len with
  | zero => intro start; rfl
  | succ n ih => intro start; simp [rowTab, H start, ih (start + 1)]

theorem rowTab_id_eq_range' : ∀ (len start : Nat),
    rowTab (fun k => k) start len = List.range' start len := by
  intro len
  induction len with
  | zero => intro start; rfl
  | succ n ih => intro start; simp [rowTab, List.range', ih (start + 1)]

theorem rowTab_getLastD (g : Nat → Nat) :
    ∀ (len start d : Nat), (rowTab g start (len + 1)).getLastD d = g (start + len) := by
  intro len
  induction len with
  | zero => intro start d; simp [rowTab]
  | succ n ih =>
    intro start d
    show ((g start :: rowTab g (start + 1) (n + 1)).getLastD d) = g (start + (n + 1))
    rw [List.getLastD_cons, ih (start + 1) (g start)]
    congr 1
    omega

theorem nextRowAux_tab (s1 s2 : List Char) (i : Nat) :
    ∀ (lst : List Char) (j : Nat), s1.drop j = lst →
      nextRowAux (s2.getD i ' ') lst (levAux s1 s2 i j) (levAux s1 s2 (i + 1) j)
          (rowTab (fun k => levAux s1 s2 i k) (j + 1) lst.length) =
        rowTab (fun k => levAux s1 s2 (i + 1) k) (j + 1) lst.length := by
  intro lst
  induction lst with
  | nil => intro j _; rfl
  | cons ch chs ih =>
    intro j hdrop
    have hg : s1[j]? = some ch := by
      have h := List.getElem?_drop s1 j 0
      rw [hdrop] at h
      simpa using h.symm
    have hch : s1.getD j ' ' = ch := by
      simp [List.getD, hg]
    have hdrop' : s1.drop (j + 1) = chs := by
      have h := List.drop_drop 1 j s1
      rw [hdrop] at h
      simpa using h.symm
    show nextRowAux (s2.getD i ' ') (ch :: chs) (levAux s1 s2 i j) (levAux s1 s2 (i + 1) j)
        (rowTab (fun k => levAux s1 s2 i k) (j + 1) (chs.length + 1)) = _
    rw [show rowTab (fun k => levAux s1 s2 i k) (j + 1) (chs.length + 1) =
        levAux s1 s2 i (j + 1) :: rowTab (fun k => levAux s1 s2 i k) (j + 2) chs.length
        from rfl]
    simp only [nextRowAux, List.headD_cons, List.tail_cons]
    have hcur : levAux s1 s2 (i + 1) (j + 1) =
        if s2.getD i ' ' = ch then levAux s1 s2 i j
        else min (levAux s1 s2 i j)
          (min (levAux s1 s2 (i + 1) j) (levAux s1 s2 i (j + 1))) + 1 := by
      rw [levAux, hch]
    rw [← hcur]
    rw [show rowTab (fun k => levAux s1 s2 (i + 1) k) (j + 1) ((ch :: chs).length) =
        levAux s1 s2 (i + 1) (j + 1) ::
          rowTab (fun k => levAux s1 s2 (i + 1) k) (j + 2) chs.length from rfl]
    congr 1
    have h2 := ih (j + 1) hdrop'
    rw [show j + 1 + 1 = j + 2 from rfl] at h2
    exact h2

theorem nextRow_tab (s1 s2 : List Char) (i : Nat) :
    nextRow (s2.getD i ' ') s1 (rowTab (fun k => levAux s1 s2 i k) 0 (s1.length + 1)) =
      rowTab (fun k => levAux s1 s2 (i + 1) k) 0 (s1.length + 1) := by
  unfold nextRow
  have hhead : (rowTab (fun k => levAux s1 s2 i k) 0 (s1.length + 1)).headD 0 =
      levAux s1 s2 i 0 := rfl
  have htail : (rowTab (fun k => levAux s1 s2 i k) 0 (s1.length + 1)).tail =
      rowTab (fun k => levAux s1 s2 i k) 1 s1.length := rfl
  simp only [hhead, htail, levAux_right_zero]
  rw [show rowTab (fun k => levAux s1 s2 (i + 1) k) 0 (s1.length + 1) =
      levAux s1 s2 (i + 1) 0 :: rowTab (fun k => levAux s1 s2 (i + 1) k) 1 s1.length from rfl]
  rw [levAux_right_zero]
  congr 1
  have h := nextRowAux_tab s1 s2 i s1 0 rfl
  rw [levAux_right_zero, levAux_right_zero] at h
  simpa using h

theorem fold_tab (s1 s2 : List Char) :
    ∀ (rest : List Char) (i : Nat), s2.drop i = rest →
      rest.foldl (fun row c => nextRow c s1 row)
          (rowTab (fun k => levAux s1 s2 i k) 0 (s1.length + 1)) =
        rowTab (fun k => levAux s1 s2 (i + rest.length) k) 0 (s1.length + 1) := by
  intro rest
  induction rest with
  | nil => intro i _; simp
  | cons c cs ih =>
    intro i hdrop
    have hg : s2[i]? = some c := by
      have h := List.getElem?_drop s2 i 0
      rw [hdrop] at h
      simpa using h.symm
    have hc : s2.getD i ' ' = c := by
      simp [List.getD, hg]
    have hdrop' : s2.drop (i + 1) = cs := by
      have h := List.drop_drop 1 i s2
      rw [hdrop] at h
      simpa using h.symm
    rw [List.foldl_cons, ← hc, nextRow_tab, ih (i + 1) hdrop']
    congr 1
    funext k
    simp only [List.length_cons]
    rw [show i + 1 + cs.length = i + (cs.length + 1) from by omega]

/-- The row-fold DP of the source equals the reference recurrence. -/
theorem levenshteinDistance_eq_levAux (s1 s2 : List Char) :
    levenshteinDistance s1 s2 = levAux s1 s2 s2.length s1.length := by
  unfold levenshteinDistance
  dsimp only
  have hinit : List.range (s1.length + 1) =
      rowTab (fun k => levAux s1 s2 0 k) 0 (s1.length + 1) := by
    rw [List.range_eq_range', ← rowTab_id_eq_range']
    exact (rowTab_congr _ _ (fun k => (levAux_left_zero s1 s2 k).symm) _ _)
  rw [hinit, fold_tab s1 s2 s2 0 rfl]
  simp only [Nat.zero_add]
  rw [rowTab_getLastD]
  simp

/-- C6: the Levenshtein distance of the source is symmetric, and the distance
of a string to itself is zero (stated for the character-list function and for
its string wrapper). -/
theorem c6_levenshtein_symm_refl :
    (∀ a b : List Char, levenshteinDistance a b = levenshteinDistance b a) ∧
      (∀ a : List Char, levenshteinDistance a a = 0) ∧
      (∀ a b : String, levenshteinDistanceS a b = levenshteinDistanceS b a) ∧
      (∀ a : String, levenshteinDistanceS a a = 0) := by
  have hsym : ∀ a b : List Char, levenshteinDistance a b = levenshteinDistance b a := by
    intro a b
    rw [levenshteinDistance_eq_levAux, levenshteinDistance_eq_levAux]
    exact levAux_symm a b b.length a.length
  have hdiag : ∀ a : List Char, levenshteinDistance a a = 0 := by
    intro a
    rw [levenshteinDistance_eq_levAux]
    exact levAux_diag a a.length
  exact ⟨hsym, hdiag, fun a b => hsym a.data b.data, fun a => hdiag a.data⟩

/-! ## C1 — no pipeline deadline, no 408 -/

/-- C1 (amended): the handler enforces no wall-clock budget and can never
produce a 408 — every run that returns at all returns 405, 500, 400 or 200,
whatever the providers do and however long the calls take. -/
theorem c1_handler_never_408 (env : Env) (o : Oracle) (fuel : Nat) (req : Req)
    (resp : Resp) (w : World) (h : handler env o fuel req = some (resp, w)) :
    (resp.status = 405 ∨ resp.status = 500 ∨ resp.status = 400 ∨ resp.status = 200) ∧
      resp.status ≠ 408 := by
  have hmain : resp.status = 405 ∨ resp.status = 500 ∨ resp.status = 400 ∨
      resp.status = 200 := by
    unfold handler at h
    split at h
    · left
      have h' := Option.some.inj h
      have := congrArg (fun p => p.1.status) h'
      simpa using this.symm
    · split at h
      · right; left
        have h' := Option.some.inj h
        have := congrArg (fun p => p.1.status) h'
        simpa using this.symm
      · split at h
        · right; right; left
          have h' := Option.some.inj h
          have := congrArg (fun p => p.1.status) h'
          simpa using this.symm
        · right; right; right
          rcases Option.bind_eq_some.mp h with ⟨pw1, _, h⟩
          try dsimp only at h
          rcases Option.bind_eq_some.mp h with ⟨pw2, _, h⟩
          try dsimp only at h
          rcases Option.bind_eq_some.mp h with ⟨pw3, _, h⟩
          try dsimp only at h
          have h' := Option.some.inj h
          have := congrArg (fun p => p.1.status) h'
          simpa using this.symm
  refine ⟨hmain, ?_⟩
  rcases hmain with h | h | h | h <;> simp [h]

/-- C1 witness for the amended theorem: a GET request is answered with 405. -/
theorem c1_handler_never_408_witness :
    ((({ status := 405, error := some "Method not allowed" } : Resp).status = 405 ∨
        ({ status := 405, error := some "Method not allowed" } : Resp).status = 500 ∨
        ({ status := 405, error := some "Method not allowed" } : Resp).status = 400 ∨
        ({ status := 405, error := some "Method not allowed" } : Resp).status = 200) ∧
      ({ status := 405, error := some "Method not allowed" } : Resp).status ≠ 408) :=
  c1_handler_never_408 c1Env c1Oracle 1 c1wReq
    { status := 405, error := some "Method not allowed" } {} rfl

/-- C1 counterexample to the claim as stated: a valid taste request whose only
external call takes 7 seconds (so the whole request takes over 6 seconds)
still gets a 200 response with data, not a 408 — the handler never measures
time. -/
theorem c1_no_timeout_counterexample :
    respStatus (handler c1Env c1Oracle 5 c1Req) = some 200 ∧
      6000 < elapsedMs c1Latency (runTrace (handler c1Env c1Oracle 5 c1Req)) ∧
      respStatus (handler c1Env c1Oracle 5 c1Req) ≠ some 408 ∧
      respPlaces (handler c1Env c1Oracle 5 c1Req) ≠ [] :=
  ⟨rfl, by decide, by decide, by decide⟩

/-! ## C3 — the pipeline never yields an empty 200 (for positive limits) -/

theorem getHardcodedPlaces_ne_nil (city query : String) :
    getHardcodedPlaces city query ≠ [] := by
  simp [getHardcodedPlaces]

theorem jsTake_ne_nil {n : Int} {l : List α} (hn : 1 ≤ n) (hl : l ≠ []) :
    jsTake n l ≠ [] := by
  unfold jsTake
  rw [if_pos (by omega : (0 : Int) ≤ n)]
  obtain ⟨k, hk⟩ : ∃ k, n.toNat = k + 1 := ⟨n.toNat - 1, by omega⟩
  rw [hk]
  cases l with
  | nil => exact absurd rfl hl
  | cons a l => simp

/-- Nonemptiness invariant of the generation/enrichment pair: a `.gen` run
with a positive limit, and an `.enrich` run with a positive target whose input
is nonempty (or with the mapping key configured), never produce an empty
list. -/
theorem pipe_ne_nil (env : Env) (o : Oracle) :
    ∀ fuel : Nat,
      (∀ (q c : String) (limit : Int) (w : World) (out : List JPlace × World),
        pipe env o fuel (PipeCall.gen q c limit) w = some out → 1 ≤ limit →
          out.1 ≠ []) ∧
      (∀ (ps : List JPlace) (c : String) (m : Int) (w : World) (out : List JPlace × World),
        pipe env o fuel (PipeCall.enrich ps c m) w = some out →
          (ps ≠ [] ∨ jsTruthyS env.googleMapsApiKey = true) → 1 ≤ m →
          out.1 ≠ []) := by
  intro fuel
  induction fuel with
  | zero =>
    constructor
    · intro q c limit w out h _
      simp [pipe] at h
    · intro ps c m w out h _ _
      simp [pipe] at h
  | succ fuel ih =>
    obtain ⟨ihgen, ihenrich⟩ := ih
    constructor
    · intro q c limit w out h hl
      simp only [pipe, openaiFetchM] at h
      by_cases hkey : (!jsTruthyS env.openaiApiKey) = true
      · rw [if_pos hkey] at h
        obtain rfl := (Option.some.inj h).symm
        exact getHardcodedPlaces_ne_nil c q
      · rw [if_neg hkey] at h
        rcases hres : o.openaiPlaces w.openaiIdx with _ | _ | contentOpt
        · rw [hres] at h
          dsimp only at h
          obtain rfl := (Option.some.inj h).symm
          exact getHardcodedPlaces_ne_nil c q
        · rw [hres] at h
          dsimp only at h
          obtain rfl := (Option.some.inj h).symm
          exact getHardcodedPlaces_ne_nil c q
        · rw [hres] at h
          dsimp only at h
          by_cases htr : (!jsTruthyS (contentOpt.map jsTrim)) = true
          · rw [if_pos htr] at h
            obtain rfl := (Option.some.inj h).symm
            exact getHardcodedPlaces_ne_nil c q
          · rw [if_neg htr] at h
            rcases hparse :
                parseJson (cleanContent ((contentOpt.map jsTrim).getD "")) with _ | v
            · rw [hparse] at h
              dsimp only at h
              by_cases hman :
                  0 < (extractPlacesManually ((contentOpt.map jsTrim).getD "") q c limit).length
              · rw [if_pos hman] at h
                rcases hrec : pipe env o fuel
                    (PipeCall.enrich
                      (extractPlacesManually ((contentOpt.map jsTrim).getD "") q c limit)
                      c limit)
                    { w with openaiIdx := w.openaiIdx + 1, trace := w.trace ++ [ExtCall.openaiPlacesFetch] } with _ | ew
                · rw [hrec] at h
                  exact Option.noConfusion h
                · rw [hrec] at h
                  dsimp only at h
                  obtain rfl := (Option.some.inj h).symm
                  have hmanne :
                      extractPlacesManually ((contentOpt.map jsTrim).getD "") q c limit ≠ [] := by
                    intro hc
                    rw [hc] at hman
                    simp at hman
                  have := ihenrich _ _ _ _ _ hrec (Or.inl hmanne) hl
                  simpa [List.map_eq_nil_iff] using this
              · rw [if_neg hman] at h
                obtain rfl := (Option.some.inj h).symm
                exact getHardcodedPlaces_ne_nil c q
            · rcases v with _ | _ | _ | _ | l | fields
              all_goals rw [hparse] at h
              all_goals dsimp only at h
              · obtain rfl := (Option.some.inj h).symm
                exact getHardcodedPlaces_ne_nil c q
              · obtain rfl := (Option.some.inj h).symm
                exact getHardcodedPlaces_ne_nil c q
              · obtain rfl := (Option.some.inj h).symm
                exact getHardcodedPlaces_ne_nil c q
              · obtain rfl := (Option.some.inj h).symm
                exact getHardcodedPlaces_ne_nil c q
              · by_cases hlen : 0 < l.length
                · rw [if_pos hlen] at h
                  rcases hrec : pipe env o fuel
                      (PipeCall.enrich ((jsTake limit l).map jsonToPlace) c limit)
                      { w with openaiIdx := w.openaiIdx + 1, trace := w.trace ++ [ExtCall.openaiPlacesFetch] } with _ | ew
                  · rw [hrec] at h
                    exact Option.noConfusion h
                  · rw [hrec] at h
                    dsimp only at h
                    obtain rfl := (Option.some.inj h).symm
                    have hlne : l ≠ [] := by
                      intro hc
                      rw [hc] at hlen
                      simp at hlen
                    have hin : (jsTake limit l).map jsonToPlace ≠ [] := by
                      simp [List.map_eq_nil_iff, jsTake_ne_nil hl hlne]
                    have := ihenrich _ _ _ _ _ hrec (Or.inl hin) hl
                    simpa [List.map_eq_nil_iff] using this
                · rw [if_neg hlen] at h
                  obtain rfl := (Option.some.inj h).symm
                  exact getHardcodedPlaces_ne_nil c q
              · obtain rfl := (Option.some.inj h).symm
                exact getHardcodedPlaces_ne_nil c q
    · intro ps c m w out h hps hm
      simp only [pipe] at h
      by_cases hkey : (!jsTruthyS env.googleMapsApiKey) = true
      · rw [if_pos hkey] at h
        have hpsne : ps ≠ [] := by
          rcases hps with hps | hps
          · exact hps
          · rw [hps] at hkey
            simp at hkey
        obtain rfl := (Option.some.inj h).symm
        simp [List.map_eq_nil_iff, List.enum_eq_nil, jsTake_ne_nil hm hpsne]
      · rw [if_neg hkey] at h
        by_cases hemp :
            (enrichLoop env o c (ps.take (min ps.length 15)) 0 (min m 15) [] [] w).1.isEmpty
              = true
        · rw [if_pos hemp] at h
          rcases hrec : pipe env o fuel
              (PipeCall.gen (jsOrS (ps.head?.bind (fun p => p.originalQuery)) "restaurants") c
                (min m 10))
              (enrichLoop env o c (ps.take (min ps.length 15)) 0 (min m 15) [] [] w).2
              with _ | ow
          · rw [hrec] at h
            exact Option.noConfusion h
          · rw [hrec] at h
            dsimp only at h
            obtain rfl := (Option.some.inj h).symm
            have hmin : (1 : Int) ≤ min m 10 := by omega
            have how := ihgen _ _ _ _ _ hrec hmin
            simp [List.append_eq_nil, how]
        · rw [if_neg hemp] at h
          obtain rfl := (Option.some.inj h).symm
          simpa [List.isEmpty_iff] using hemp

theorem processPlaces_fst_ne_nil (env : Env) (o : Oracle) (q : String)
    (l : List JPlace) (w : World) (hl : l ≠ []) :
    (processPlaces env o q l w).1 ≠ [] := by
  cases l with
  | nil => exact absurd rfl hl
  | cons p rest => simp [processPlaces]

/-- C3 (amended): for every POST request with a parsable body, a truthy city
and a requested limit of at least 1, any terminating run answers 200 with a
non-empty `places` array — whatever the providers do, the terminal static
fallback (or an earlier stage) supplies at least one place. -/
theorem c3_nonempty_places (env : Env) (o : Oracle) (fuel : Nat) (req : Req)
    (b : ReqBody) (resp : Resp) (w : World)
    (hbody : req.body = some b)
    (hmethod : req.httpMethod = "POST")
    (hcity : jsTruthyS b.city = true)
    (hlimit : 1 ≤ b.limit.getD 50)
    (h : handler env o fuel req = some (resp, w)) :
    resp.status = 200 ∧ resp.places ≠ [] := by
  unfold handler at h
  rw [hmethod, if_neg (by simp)] at h
  rw [hbody] at h
  try dsimp only at h
  rw [if_neg (by simp [hcity])] at h
  rcases Option.bind_eq_some.mp h with ⟨pw1, _h1, h⟩
  try dsimp only at h
  rcases Option.bind_eq_some.mp h with ⟨pw2, _h2, h⟩
  try dsimp only at h
  rcases Option.bind_eq_some.mp h with ⟨pw3, h3, h⟩
  try dsimp only at h
  have hplaces : pw3.1 ≠ [] := by
    by_cases hemp : pw2.1.isEmpty = true
    · rw [if_pos hemp] at h3
      have hmin : (1 : Int) ≤ min (b.limit.getD 50) 10 := by omega
      exact (pipe_ne_nil env o fuel).1 _ _ _ _ _ h3 hmin
    · rw [if_neg hemp] at h3
      obtain rfl := Option.some.inj h3
      simpa [List.isEmpty_iff] using hemp
  have h' := Option.some.inj h
  constructor
  · have := congrArg (fun p => p.1.status) h'
    simpa using this.symm
  · have := congrArg (fun p => p.1.places) h'
    dsimp only at this
    rw [← this]
    exact processPlaces_fst_ne_nil env o _ pw3.1 pw3.2 hplaces

/-- C3 witness: a plain taste request with the default limit against failing
providers and an empty environment ends 200 with the three hardcoded
places. -/
theorem c3_nonempty_places_witness :
    respStatus (handler ({} : Env) oracleAllFail 2 c3wReq) = some 200 ∧
      respPlaces (handler ({} : Env) oracleAllFail 2 c3wReq) ≠ [] := by
  rcases hEq : handler ({} : Env) oracleAllFail 2 c3wReq with _ | ⟨resp, w⟩
  · exact absurd hEq (by decide)
  · have hmain := c3_nonempty_places ({} : Env) oracleAllFail 2 c3wReq
      { type := some "taste", query := some "sushi", city := some "Tokyo" } resp w
      rfl rfl (by decide) (by decide) hEq
    simp [respStatus, respPlaces, hEq, hmain.1, hmain.2]

/-- C3 counterexample to the claim as stated: a valid POST with non-empty
query and city but `limit: 0`, a failing taste provider, an OpenAI key and a
valid generated array, is answered 200 with an empty `places` array. -/
theorem c3_empty_places_counterexample :
    (c3Req.body.map (fun b => (jsTruthyS b.query, jsTruthyS b.city))) = some (true, true) ∧
      respStatus (handler c3Env c3Oracle 5 c3Req) = some 200 ∧
      respPlaces (handler c3Env c3Oracle 5 c3Req) = [] :=
  ⟨rfl, rfl, rfl⟩

/-! ## C2 — the `(name, address)` dedup invariant -/

theorem hardcoded_nodup (city query : String) :
    List.Pairwise (fun p q => placePair p ≠ placePair q) (getHardcodedPlaces city query) := by
  simp [getHardcodedPlaces, placePair, List.pairwise_cons, Prod.ext_iff]

/-- A candidate selected by the inner scan is not in the dedup set. -/
theorem findGoogleCandidate_not_seen (city : String) (p : JPlace) (sq : String)
    (seen : List String) :
    ∀ (l : List GoogleCandidate) (cand : GoogleCandidate),
      findGoogleCandidate city p sq seen l = some cand →
      (cand.name ++ "|" ++ cand.formatted_address) ∉ seen := by
  intro l
  induction l with
  | nil => intro cand h; simp [findGoogleCandidate] at h
  | cons r rest ih =>
    intro cand h
    rw [findGoogleCandidate] at h
    split at h
    · exact ih cand h
    · split at h
      · exact ih cand h
      · split at h
        · exact ih cand h
        · rename_i hseen
          obtain rfl : r = cand := Option.some.inj h
          intro hm
          apply hseen
          simpa using hm

/-- Invariant of the enrichment validation loop: if every accumulated place
has its `name|address` key in the dedup set and the accumulator is
`(name, address)`-pairwise-distinct, so is the loop result. -/
theorem enrichLoop_nodup (env : Env) (o : Oracle) (city : String) :
    ∀ (ps : List JPlace) (idx : Nat) (target : Int) (seen : List String)
      (acc : List JPlace) (w : World),
      (∀ p ∈ acc, ∃ n a, p.name = some n ∧ p.address = some a ∧ (n ++ "|" ++ a) ∈ seen) →
      List.Pairwise (fun p q => placePair p ≠ placePair q) acc →
      List.Pairwise (fun p q => placePair p ≠ placePair q)
        (enrichLoop env o city ps idx target seen acc w).1 := by
  intro ps
  induction ps with
  | nil => intro idx target seen acc w _ hpw; exact hpw
  | cons p rest ih =>
    intro idx target seen acc w hkeys hpw
    simp only [enrichLoop, googleFetchM]
    by_cases htar : ((acc.length : Int) < target)
    · rw [if_pos htar]
      rcases hres : o.google w.googleIdx with _ | _ | results
      · exact ih _ _ _ _ _ hkeys hpw
      · exact ih _ _ _ _ _ hkeys hpw
      · dsimp only
        by_cases hempt : results.isEmpty = true
        · rw [if_pos hempt]
          exact ih _ _ _ _ _ hkeys hpw
        · rw [if_neg hempt]
          split
          · exact ih _ _ _ _ _ hkeys hpw
          · rename_i cand hcand
            apply ih
            · intro q hq
              rcases List.mem_append.mp hq with hq | hq
              · rcases hkeys q hq with ⟨n, a, hn, ha, hin⟩
                exact ⟨n, a, hn, ha, List.mem_append.mpr (Or.inl hin)⟩
              · rcases List.mem_singleton.mp hq with rfl
                exact ⟨cand.name, cand.formatted_address, rfl, rfl,
                  List.mem_append.mpr (Or.inr (List.mem_singleton.mpr rfl))⟩
            · rw [List.pairwise_append]
              refine ⟨hpw, by simp [List.pairwise_cons], ?_⟩
              intro q hq q' hq'
              rcases List.mem_singleton.mp hq' with rfl
              intro hc
              rcases hkeys q hq with ⟨n, a, hn, ha, hin⟩
              have hnot := findGoogleCandidate_not_seen city p _ seen (results.take 2)
                cand hcand
              apply hnot
              have hc' : (q.name, q.address) =
                  ((some cand.name : Option String),
                    (some cand.formatted_address : Option String)) := hc
              have hcn : q.name = some cand.name := congrArg Prod.fst hc'
              have hca : q.address = some cand.formatted_address := congrArg Prod.snd hc'
              have hn' : n = cand.name := Option.some.inj (hn.symm.trans hcn)
              have ha' : a = cand.formatted_address := Option.some.inj (ha.symm.trans hca)
              rw [hn', ha'] at hin
              exact hin
    · rw [if_neg htar]
      exact hpw

/-- With a Google Maps key configured, every `some` result of the stage pair
carries a `(name, address)`-pairwise-distinct list of places. -/
theorem pipe_nodup (env : Env) (o : Oracle)
    (hg : jsTruthyS env.googleMapsApiKey = true) :
    ∀ (fuel : Nat) (call : PipeCall) (w : World) (out : List JPlace × World),
      pipe env o fuel call w = some out →
      List.Pairwise (fun p q => placePair p ≠ placePair q) out.1 := by
  intro fuel
  induction fuel with
  | zero => intro call w out h; simp [pipe] at h
  | succ fuel ih =>
    intro call w out h
    rcases call with ⟨q, c, limit⟩ | ⟨ps, c, m⟩
    · simp only [pipe, openaiFetchM] at h
      by_cases hkey : (!jsTruthyS env.openaiApiKey) = true
      · rw [if_pos hkey] at h
        obtain rfl := (Option.some.inj h).symm
        exact hardcoded_nodup c q
      · rw [if_neg hkey] at h
        rcases hres : o.openaiPlaces w.openaiIdx with _ | _ | contentOpt
        · rw [hres] at h
          dsimp only at h
          obtain rfl := (Option.some.inj h).symm
          exact hardcoded_nodup c q
        · rw [hres] at h
          dsimp only at h
          obtain rfl := (Option.some.inj h).symm
          exact hardcoded_nodup c q
        · rw [hres] at h
          dsimp only at h
          by_cases htr : (!jsTruthyS (contentOpt.map jsTrim)) = true
          · rw [if_pos htr] at h
            obtain rfl := (Option.some.inj h).symm
            exact hardcoded_nodup c q
          · rw [if_neg htr] at h
            rcases hparse :
                parseJson (cleanContent ((contentOpt.map jsTrim).getD "")) with _ | v
            · rw [hparse] at h
              dsimp only at h
              by_cases hman :
                  0 < (extractPlacesManually ((contentOpt.map jsTrim).getD "") q c limit).length
              · rw [if_pos hman] at h
                rcases hrec : pipe env o fuel
                    (PipeCall.enrich
                      (extractPlacesManually ((contentOpt.map jsTrim).getD "") q c limit)
                      c limit)
                    { w with openaiIdx := w.openaiIdx + 1, trace := w.trace ++ [ExtCall.openaiPlacesFetch] } with _ | ew
                · rw [hrec] at h
                  exact Option.noConfusion h
                · rw [hrec] at h
                  dsimp only at h
                  obtain rfl := (Option.some.inj h).symm
                  have hpw := ih _ _ _ hrec
                  rw [List.pairwise_map]
                  exact hpw.imp (fun hab => hab)
              · rw [if_neg hman] at h
                obtain rfl := (Option.some.inj h).symm
                exact hardcoded_nodup c q
            · rcases v with _ | _ | _ | _ | l | fields
              all_goals rw [hparse] at h
              all_goals dsimp only at h
              · obtain rfl := (Option.some.inj h).symm
                exact hardcoded_nodup c q
              · obtain rfl := (Option.some.inj h).symm
                exact hardcoded_nodup c q
              · obtain rfl := (Option.some.inj h).symm
                exact hardcoded_nodup c q
              · obtain rfl := (Option.some.inj h).symm
                exact hardcoded_nodup c q
              · by_cases hlen : 0 < l.length
                · rw [if_pos hlen] at h
                  rcases hrec : pipe env o fuel
                      (PipeCall.enrich ((jsTake limit l).map jsonToPlace) c limit)
                      { w with openaiIdx := w.openaiIdx + 1, trace := w.trace ++ [ExtCall.openaiPlacesFetch] } with _ | ew
                  · rw [hrec] at h
                    exact Option.noConfusion h
                  · rw [hrec] at h
                    dsimp only at h
                    obtain rfl := (Option.some.inj h).symm
                    have hpw := ih _ _ _ hrec
                    rw [List.pairwise_map]
                    exact hpw.imp (fun hab => hab)
                · rw [if_neg hlen] at h
                  obtain rfl := (Option.some.inj h).symm
                  exact hardcoded_nodup c q
              · obtain rfl := (Option.some.inj h).symm
                exact hardcoded_nodup c q
    · simp only [pipe] at h
      by_cases hkey : (!jsTruthyS env.googleMapsApiKey) = true
      · rw [hg] at hkey
        exact absurd hkey (by decide)
      · rw [if_neg hkey] at h
        have hvw := enrichLoop_nodup env o c (ps.take (min ps.length 15)) 0 (min m 15)
          [] [] w (by intro p hp; simp at hp) List.Pairwise.nil
        by_cases hemp :
            (enrichLoop env o c (ps.take (min ps.length 15)) 0 (min m 15) [] [] w).1.isEmpty
              = true
        · rw [if_pos hemp] at h
          rcases hrec : pipe env o fuel
              (PipeCall.gen (jsOrS (ps.head?.bind (fun p => p.originalQuery)) "restaurants") c
                (min m 10))
              (enrichLoop env o c (ps.take (min ps.length 15)) 0 (min m 15) [] [] w).2
              with _ | ow
          · rw [hrec] at h
            exact Option.noConfusion h
          · rw [hrec] at h
            dsimp only at h
            obtain rfl := (Option.some.inj h).symm
            have hv : (enrichLoop env o c (ps.take (min ps.length 15)) 0 (min m 15)
                [] [] w).1 = [] := List.isEmpty_iff.mp hemp
            rw [hv]
            simp only [List.nil_append]
            exact ih _ _ _ hrec
        · rw [if_neg hemp] at h
          obtain rfl := (Option.some.inj h).symm
          exact hvw

/-- Response processing only repackages each place: the `(name, address)` pair
of every output place is that of some input place. -/
theorem processPlaces_mem (env : Env) (o : Oracle) (q : String) :
    ∀ (l : List JPlace) (w : World) (p' : JPlace),
      p' ∈ (processPlaces env o q l w).1 → ∃ p ∈ l, placePair p' = placePair p := by
  intro l
  induction l with
  | nil => intro w p' h; simp [processPlaces] at h
  | cons p rest ih =>
    intro w p' h
    simp only [processPlaces] at h
    rcases List.mem_cons.mp h with hh | hh
    · exact ⟨p, List.mem_cons_self p rest, by rw [hh]; rfl⟩
    · rcases ih _ _ hh with ⟨p0, hp0, hpp⟩
      exact ⟨p0, List.mem_cons_of_mem p hp0, hpp⟩

/-- Response processing preserves `(name, address)`-pairwise-distinctness. -/
theorem processPlaces_pairwise (env : Env) (o : Oracle) (q : String) :
    ∀ (l : List JPlace) (w : World),
      List.Pairwise (fun p q => placePair p ≠ placePair q) l →
      List.Pairwise (fun p q => placePair p ≠ placePair q) (processPlaces env o q l w).1 := by
  intro l
  induction l with
  | nil => intro w _; simp [processPlaces]
  | cons p rest ih =>
    intro w hpw
    simp only [processPlaces]
    rw [List.pairwise_cons]
    constructor
    · intro q' hq'
      rcases processPlaces_mem env o q rest _ q' hq' with ⟨p0, hp0, hpp⟩
      have hR := (List.pairwise_cons.mp hpw).1 p0 hp0
      show placePair p ≠ placePair q'
      rw [hpp]
      exact hR
    · exact ih _ (List.pairwise_cons.mp hpw).2

/-- With a Google Maps key, every `some` result of the taste-provider attempt
is `(name, address)`-pairwise-distinct. -/
theorem qlooAttempt_nodup (env : Env) (o : Oracle)
    (hg : jsTruthyS env.googleMapsApiKey = true)
    (fuel : Nat) (sq city : String) (limit : Int) (w : World)
    (out : List JPlace × World)
    (h : qlooAttempt env o fuel sq city limit w = some out) :
    List.Pairwise (fun p q => placePair p ≠ placePair q) out.1 := by
  unfold qlooAttempt at h
  dsimp only at h
  rcases hq : (callQlooAPI env o sq city w).1 with e | entities
  · rw [hq] at h
    dsimp only at h
    obtain rfl := (Option.some.inj h).symm
    exact List.Pairwise.nil
  · rw [hq] at h
    dsimp only at h
    by_cases hlen : (convertQlooResponse entities sq city).length > 0
    · rw [if_pos hlen] at h
      exact pipe_nodup env o hg fuel _ _ _ h
    · rw [if_neg hlen] at h
      obtain rfl := (Option.some.inj h).symm
      exact List.Pairwise.nil

/-- C2 (amended): when a Google Maps key is configured — so every generated or
taste-provider place passes through the enrichment validation loop and its
seen-set — the `places` array of any run outcome has pairwise-distinct
`(name, address)` pairs, across all fallback paths. -/
theorem c2_dedup_with_google_key (env : Env) (o : Oracle) (fuel : Nat) (req : Req)
    (hg : jsTruthyS env.googleMapsApiKey = true) :
    List.Pairwise (fun p q => placePair p ≠ placePair q)
      (respPlaces (handler env o fuel req)) := by
  rcases hr : handler env o fuel req with _ | rw0
  · exact List.Pairwise.nil
  · have hgoal : respPlaces (some rw0) = rw0.1.places := rfl
    rw [hgoal]
    unfold handler at hr
    by_cases hm : req.httpMethod ≠ "POST"
    · rw [if_pos hm] at hr
      obtain rfl := (Option.some.inj hr).symm
      exact List.Pairwise.nil
    · rw [if_neg hm] at hr
      rcases hb : req.body with _ | b
      · rw [hb] at hr
        obtain rfl := (Option.some.inj hr).symm
        exact List.Pairwise.nil
      · rw [hb] at hr
        try dsimp only at hr
        by_cases hc : (!jsTruthyS b.city) = true
        · rw [if_pos hc] at hr
          obtain rfl := (Option.some.inj hr).symm
          exact List.Pairwise.nil
        · rw [if_neg hc] at hr
          rcases Option.bind_eq_some.mp hr with ⟨pw1, h1, hr⟩
          try dsimp only at hr
          rcases Option.bind_eq_some.mp hr with ⟨pw2, h2, hr⟩
          try dsimp only at hr
          rcases Option.bind_eq_some.mp hr with ⟨pw3, h3, hr⟩
          try dsimp only at hr
          have hpw1 : List.Pairwise (fun p q => placePair p ≠ placePair q) pw1.1 := by
            by_cases ht : (b.type = some "taste" ∧ jsOrS b.query (jsOrS b.place_id "") ≠ "")
            · rw [if_pos ht] at h1
              exact qlooAttempt_nodup env o hg fuel _ _ _ _ _ h1
            · rw [if_neg ht] at h1
              obtain rfl := (Option.some.inj h1).symm
              exact List.Pairwise.nil
          have hpw2 : List.Pairwise (fun p q => placePair p ≠ placePair q) pw2.1 := by
            by_cases ht : (b.type = some "similar" ∧ jsOrS b.query (jsOrS b.place_id "") ≠ "")
            · rw [if_pos ht] at h2
              exact qlooAttempt_nodup env o hg fuel _ _ _ _ _ h2
            · rw [if_neg ht] at h2
              obtain rfl := Option.some.inj h2
              exact hpw1
          have hpw3 : List.Pairwise (fun p q => placePair p ≠ placePair q) pw3.1 := by
            by_cases hemp : pw2.1.isEmpty = true
            · rw [if_pos hemp] at h3
              exact pipe_nodup env o hg fuel _ _ _ h3
            · rw [if_neg hemp] at h3
              obtain rfl := Option.some.inj h3
              exact hpw2
          have h' := Option.some.inj hr
          have hpl := congrArg (fun p => p.1.places) h'
          dsimp only at hpl
          rw [← hpl]
          exact processPlaces_pairwise env o _ pw3.1 pw3.2 hpw3

/-- C2 witness for the amended theorem: with a Google Maps key and failing
providers the response (here the three hardcoded places) is pairwise
distinct. -/
theorem c2_dedup_with_google_key_witness :
    jsTruthyS c2wEnv.googleMapsApiKey = true ∧
      List.Pairwise (fun p q => placePair p ≠ placePair q)
        (respPlaces (handler c2wEnv oracleAllFail 3 c2wReq)) :=
  ⟨by decide, c2_dedup_with_google_key c2wEnv oracleAllFail 3 c2wReq (by decide)⟩

/-- C2 counterexample to the claim as stated: a valid POST with a non-empty
city, no Google Maps key, and generative content whose valid JSON array
repeats a `(name, address)` pair is answered 200 with that pair duplicated in
`places` — no stage deduplicates on this path. -/
theorem c2_dup_counterexample :
    respStatus (handler c2Env c2Oracle 3 c2Req) = some 200 ∧
      (respPlaces (handler c2Env c2Oracle 3 c2Req)).map placePair =
        [(some "A", some "X"), (some "A", some "X")] ∧
      ¬ List.Pairwise (fun p q => placePair p ≠ placePair q)
          (respPlaces (handler c2Env c2Oracle 3 c2Req)) := by
  refine ⟨rfl, rfl, ?_⟩
  intro hpw
  have hm : List.Pairwise (fun x y => x ≠ y)
      (List.map placePair (respPlaces (handler c2Env c2Oracle 3 c2Req))) :=
    List.pairwise_map.mpr hpw
  rw [show List.map placePair (respPlaces (handler c2Env c2Oracle 3 c2Req)) =
      [((some "A" : Option String), (some "X" : Option String)),
        (some "A", some "X")] from rfl] at hm
  exact (List.pairwise_cons.mp hm).1 _ (by simp) rfl

/-! ## C9 — explanation preservation -/

/-- C9 (amended): the generator short-circuit exists only when no OpenAI key
is configured: then a place with a truthy (non-empty) upstream explanation
keeps it verbatim and the world — in particular its call trace — is returned
untouched, so no generative call is made for that place. -/
theorem c9_explanation_preserved_without_key (env : Env) (o : Oracle)
    (q : String) (place : JPlace) (w : World)
    (hkey : jsTruthyS env.openaiApiKey = false)
    (hexp : jsTruthyS place.explanation = true) :
    generateExplanation env o q place w = (place.explanation.getD "", w) := by
  unfold generateExplanation
  rw [if_pos (show (!jsTruthyS env.openaiApiKey) = true by rw [hkey]; rfl)]
  rcases hpe : place.explanation with _ | s
  · rw [hpe] at hexp
    simp [jsTruthyS] at hexp
  · rw [hpe] at hexp
    have hs : ¬(s = "") := by
      simpa [jsTruthyS] using hexp
    simp [jsOrS, hs]

/-- C9 witness: with no key configured, a place carrying the upstream
explanation "Existing expl" keeps it and the empty world stays empty. -/
theorem c9_explanation_preserved_witness :
    jsTruthyS ({} : Env).openaiApiKey = false ∧
      jsTruthyS c9wPlace.explanation = true ∧
      generateExplanation ({} : Env) oracleAllFail "q" c9wPlace ({} : World) =
        ("Existing expl", ({} : World)) :=
  ⟨by decide, by decide,
    c9_explanation_preserved_without_key ({} : Env) oracleAllFail "q" c9wPlace ({} : World)
      (by decide) (by decide)⟩

/-- C9 counterexample to the claim as stated: with an OpenAI key configured,
the generator is invoked even for a place whose explanation is already
non-empty, and a successful call replaces that explanation — both at the
`generateExplanation` level and through a full handler run whose taste
provider supplies a place with an upstream description. -/
theorem c9_explanation_replaced_counterexample :
    jsTruthyS c9wPlace.explanation = true ∧
      generateExplanation c9Env c9Oracle "sushi" c9wPlace ({} : World) =
        ("Generated", { explainIdx := 1, trace := [ExtCall.openaiExplainFetch] }) ∧
      ("Generated" : String) ≠ "Existing expl" ∧
      (respPlaces (handler c9Env c9Oracle 5 c9Req)).map (fun p => p.explanation) =
        [some "Generated"] ∧
      runTrace (handler c9Env c9Oracle 5 c9Req) =
        [ExtCall.qlooFetch 0, ExtCall.openaiExplainFetch] :=
  ⟨rfl, rfl, by decide, rfl, rfl⟩
